import Mathlib

/-!
Formal model of the referential-cascade deletion planner in the
`sql-tools` repository (`src/data_cleanup/data_cleanup_types.py`,
`src/data_cleanup/data_cleanup_utils.py`, `src/utils/db_util_types.py`).

Python is embedded shallowly:
* Python sets are modelled as duplicate-free lists; `set.update` becomes
  `setUnion`, which appends the elements not already present, and set
  comprehensions become `dedupFirst` (first-occurrence deduplication).
  Claims about sets are stated via membership, which is exactly Python's
  notion of set equality.
* The dynamically typed ID domain (`Any`) is modelled by `Value`:
  either a scalar (string, int, or `None`) or a tuple of scalars, which
  is the whole domain the cleanup code ever stores in an ID set.
* Database access is an oracle `String → Except String (List Row)`;
  `try/except` around a query becomes a `match` on the oracle's answer.
* The planner's `while` loop is modelled with an explicit fuel
  parameter; divergence of the source loop shows up as the runner
  exhausting every fuel bound.
-/

/-- A scalar SQL value: the `str` / numeric / `None` cases distinguished by
the `isinstance` checks in the source. -/
inductive Scalar where
  | sStr (s : String)
  | sInt (n : Int)
  | sNull
deriving DecidableEq

/-- A dynamically typed ID value: a scalar (single-column key) or a tuple of
scalars (multi-column key), mirroring the `Any` values the cleanup code
stores in its ID sets. -/
inductive Value where
  | scalar (v : Scalar)
  | tup (vs : List Scalar)
deriving DecidableEq

/-- A row returned by a query: a tuple of scalar column values. -/
abbrev Row := List Scalar

/-- First-occurrence deduplication with an explicit `seen` accumulator,
mirroring the `seen = set(); unique_results = []` loop in
`_process_referenced_values_in_batches` and Python set construction. -/
def dedupFirstAux [DecidableEq α] (seen : List α) : List α → List α
  | [] => []
  | a :: l => if a ∈ seen then dedupFirstAux seen l else a :: dedupFirstAux (a :: seen) l

/-- First-occurrence deduplication of a list (the model of turning a list
into a Python set, keeping a deterministic order). -/
def dedupFirst [DecidableEq α] (l : List α) : List α := dedupFirstAux [] l

/-- Model of Python `set.update`: keep the existing elements, append the new
ones that are not already present. -/
def setUnion [DecidableEq α] (a b : List α) : List α :=
  a ++ b.filter (fun x => decide (x ∉ a))

/-- Replace the first element satisfying `p` (Python mutates the single task
object found by `get_task`). -/
def updateFirst (p : α → Bool) (f : α → α) : List α → List α
  | [] => []
  | a :: l => if p a then f a :: l else a :: updateFirst p f l

/-- `batch_size`-sized chunks, with fuel for structural recursion; with
`fuel = l.length` this is `id_list[i : i + batch_size]` for
`i in range(0, len(id_list), batch_size)`. -/
def chunkGo (n : Nat) : Nat → List α → List (List α)
  | 0, _ => []
  | _, [] => []
  | fuel + 1, l => l.take n :: chunkGo n fuel (l.drop n)

/-- The batches `id_list[i : i + n]` for `i in range(0, len(id_list), n)`. -/
def chunkList (n : Nat) (l : List α) : List (List α) := chunkGo n l.length l

/-- Model of CPython `repr` on scalars, used only inside `pyStr` for tuple
rendering. CPython's quote-style switching for strings that contain a
single quote is not modelled; no verified claim evaluates `str` on a
tuple-valued ID. -/
def Scalar.pyRepr : Scalar → String
  | .sStr s => "'" ++ s ++ "'"
  | .sInt n => toString n
  | .sNull => "None"

/-- Model of CPython `str` on the ID domain, the `str(id_val)` / `str(val)`
fallback branch of the literal formatters. Strings and `None` are
intercepted before `str` is reached, so only the numeric and tuple cases
are ever exercised by the source. -/
def Value.pyStr : Value → String
  | .scalar (.sStr s) => s
  | .scalar (.sInt n) => toString n
  | .scalar .sNull => "None"
  | .tup [v] => "(" ++ v.pyRepr ++ ",)"
  | .tup vs => "(" ++ String.intercalate ", " (vs.map Scalar.pyRepr) ++ ")"

/-- `data_cleanup_types.format_id_list_for_sql`: format a set of IDs for a
SQL `IN` clause. Note the string branch quotes the value without doubling
embedded single quotes. -/
def format_id_list_for_sql (ids : List Value) : String :=
  String.intercalate ", " (ids.map fun id_val =>
    match id_val with
    | .scalar (.sStr s) => "'" ++ s ++ "'"
    | .scalar .sNull => "NULL"
    | _ => id_val.pyStr)

/-- `val.replace("'", "''")`: double every single quote.  Implemented over
the character list so that it evaluates by `decide`; for a single-character
pattern this is exactly Python's `str.replace`. -/
def escapeQuotes (s : String) : String :=
  String.mk (s.data.foldr (fun c acc => if c = '\'' then c :: c :: acc else c :: acc) [])

structure DbColumn where
  column_name : String
  data_type : String
deriving DecidableEq

structure PrimaryKey where
  name : String
  columns : List DbColumn
deriving DecidableEq

/-- `utils.db_util_types.DbTable`, restricted to the metadata the cleanup
operations consult (schema, name, primary key). -/
structure DbTable where
  schema_name : String
  table_name : String
  primary_key : Option PrimaryKey
deriving DecidableEq

/-- The `f"{table.schema_name}.{table.table_name}"` key used everywhere. -/
def tableKey (t : DbTable) : String := t.schema_name ++ "." ++ t.table_name

/-- The guard `not table.primary_key or not table.primary_key.columns`
holds exactly when this list is empty. -/
def pkColumnsOf (t : DbTable) : List DbColumn :=
  match t.primary_key with
  | none => []
  | some pk => pk.columns

structure Relationship where
  name : String
  parent_table : DbTable
  parent_columns : List DbColumn
  referenced_table : DbTable
  referenced_columns : List DbColumn
deriving DecidableEq

/-- One condition of a multi-column key predicate: the
`IS NULL` / escaped-string / `str(val)` branches shared verbatim by
`_build_pk_where_clause`, `build_fk_where_clause` and
`CleanupOperation._build_multi_column_pk_where_clause`. -/
def scalarCondition (col_name : String) (val : Scalar) : String :=
  match val with
  | .sNull => "[" ++ col_name ++ "] IS NULL"
  | .sStr s => "[" ++ col_name ++ "] = '" ++ escapeQuotes s ++ "'"
  | .sInt n => "[" ++ col_name ++ "] = " ++ toString n

/-- The `for i, col in enumerate(columns): if i >= len(tuple): break` loop:
one condition per column/value pair, truncated to the shorter list. -/
def tupleConditions (cols : List DbColumn) (tup : List Scalar) : List String :=
  (cols.zip tup).map (fun p => scalarCondition p.1.column_name p.2)

/-- The `if not isinstance(pk_tuple, (tuple, list)): pk_tuple = (pk_tuple,)`
safety wrap. -/
def toTuple : Value → List Scalar
  | .tup vs => vs
  | .scalar v => [v]

/-- `data_cleanup_utils._build_pk_where_clause`. -/
def _build_pk_where_clause (pk_columns : List DbColumn) (pk_values : List Value) : String :=
  match pk_columns with
  | [pk_column] =>
    "[" ++ pk_column.column_name ++ "] IN (" ++ format_id_list_for_sql pk_values ++ ")"
  | _ =>
    let where_clauses := pk_values.filterMap (fun pk_tuple =>
      let conditions := tupleConditions pk_columns (toTuple pk_tuple)
      if conditions = [] then none
      else some ("(" ++ String.intercalate " AND " conditions ++ ")"))
    if where_clauses = [] then "1=0" else String.intercalate " OR " where_clauses

/-- `data_cleanup_utils.build_fk_where_clause`.  In the single-column branch
`{val[0] for val in referenced_values}` is modelled with `headD`; rows
produced by a `SELECT` are never empty. -/
def build_fk_where_clause (foreign_key_columns : List DbColumn)
    (referenced_values : List Row) : String :=
  match foreign_key_columns with
  | [fk_column] =>
    let single_values := dedupFirst (referenced_values.map (fun val => val.headD .sNull))
    "[" ++ fk_column.column_name ++ "] IN ("
      ++ format_id_list_for_sql (single_values.map Value.scalar) ++ ")"
  | _ =>
    let where_clauses := referenced_values.filterMap (fun ref_tuple =>
      let conditions := tupleConditions foreign_key_columns ref_tuple
      if conditions = [] then none
      else some ("(" ++ String.intercalate " AND " conditions ++ ")"))
    if where_clauses = [] then "1=0" else String.intercalate " OR " where_clauses

/-- `CleanupOperation._build_multi_column_pk_where_clause` (textually the
same loop as the multi-column branch of `_build_pk_where_clause`). -/
def _build_multi_column_pk_where_clause (pk_columns : List DbColumn)
    (pk_values : List Value) : String :=
  let where_clauses := pk_values.filterMap (fun pk_tuple =>
    let conditions := tupleConditions pk_columns (toTuple pk_tuple)
    if conditions = [] then none
    else some ("(" ++ String.intercalate " AND " conditions ++ ")"))
  if where_clauses = [] then "1=0" else String.intercalate " OR " where_clauses

/-- `data_cleanup_types.CleanupOperation`: a table plus the final ID set. -/
structure CleanupOperation where
  table : DbTable
  ids : List Value
deriving DecidableEq

/-- `CleanupOperation.generate_delete_sql`. -/
def CleanupOperation.generate_delete_sql (self : CleanupOperation) : String :=
  if self.ids = [] ∨ pkColumnsOf self.table = [] then ""
  else
    match pkColumnsOf self.table with
    | [pk_column] =>
      "\n            DELETE FROM [" ++ self.table.schema_name ++ "].["
        ++ self.table.table_name ++ "]\n            WHERE ["
        ++ pk_column.column_name ++ "] IN (" ++ format_id_list_for_sql self.ids
        ++ ")\n            "
    | pk_columns =>
      "\n            DELETE FROM [" ++ self.table.schema_name ++ "].["
        ++ self.table.table_name ++ "]\n            WHERE "
        ++ _build_multi_column_pk_where_clause pk_columns self.ids
        ++ "\n            "

/-- `CleanupOperation.generate_batched_delete_sql`; `set(batch)` is modelled
by `dedupFirst batch`. -/
def CleanupOperation.generate_batched_delete_sql (self : CleanupOperation)
    (batch_size : Int) : List String :=
  if self.ids = [] ∨ pkColumnsOf self.table = [] ∨ batch_size ≤ 0 then []
  else
    (chunkList batch_size.toNat self.ids).map (fun batch =>
      match pkColumnsOf self.table with
      | [pk_column] =>
        "\n                DELETE FROM [" ++ self.table.schema_name ++ "].["
          ++ self.table.table_name ++ "]\n                WHERE ["
          ++ pk_column.column_name ++ "] IN ("
          ++ format_id_list_for_sql (dedupFirst batch) ++ ")\n                "
      | pk_columns =>
        "\n                DELETE FROM [" ++ self.table.schema_name ++ "].["
          ++ self.table.table_name ++ "]\n                WHERE "
          ++ _build_multi_column_pk_where_clause pk_columns (dedupFirst batch)
          ++ "\n                ")

/-- `data_cleanup_types.ProcessingStatus`. -/
inductive ProcessingStatus where
  | PENDING
  | PROCESSING
  | COMPLETED
deriving DecidableEq

/-- `data_cleanup_types.CascadeTask`.  Levels start at 0 and only ever grow
by 1 per cascade step, so they are modelled as naturals. -/
structure CascadeTask where
  table : DbTable
  table_key : String
  ids : List Value
  status : ProcessingStatus
  level : Nat
deriving DecidableEq

/-- `data_cleanup_types.ProcessingQueue`. -/
structure ProcessingQueue where
  tasks : List CascadeTask
  completed_tables : List String
deriving DecidableEq

/-- The empty queue (`ProcessingQueue()` with default factories). -/
def ProcessingQueue.empty : ProcessingQueue := ⟨[], []⟩

/-- `ProcessingQueue.get_task`: first task with the given key. -/
def ProcessingQueue.get_task (self : ProcessingQueue) (table_key : String) :
    Option CascadeTask :=
  self.tasks.find? (fun t => t.table_key = table_key)

/-- The merge performed by `add_task` on an existing task: union the IDs,
bump the level to the max, and reset COMPLETED to PENDING when the union
strictly grew the ID set (`new_count > old_count`). -/
def mergeTask (ids : List Value) (level : Nat) (t : CascadeTask) : CascadeTask :=
  let old_count := t.ids.length
  let new_ids := setUnion t.ids ids
  let new_count := new_ids.length
  let new_level := max t.level level
  let new_status :=
    if t.status = ProcessingStatus.COMPLETED ∧ old_count < new_count
    then ProcessingStatus.PENDING else t.status
  { t with ids := new_ids, level := new_level, status := new_status }

/-- `ProcessingQueue.add_task`: merge into the existing task for the table
or append a new PENDING task; returns the updated queue and the (possibly
pre-existing) task. -/
def ProcessingQueue.add_task (self : ProcessingQueue) (table : DbTable)
    (ids : List Value) (level : Nat) : ProcessingQueue × CascadeTask :=
  let table_key := tableKey table
  match self.get_task table_key with
  | some existing_task =>
    let merged := mergeTask ids level existing_task
    let new_tasks :=
      updateFirst (fun t => t.table_key = table_key) (fun _ => merged) self.tasks
    ({ self with tasks := new_tasks }, merged)
  | none =>
    let task : CascadeTask :=
      { table := table, table_key := table_key, ids := ids,
        status := ProcessingStatus.PENDING, level := level }
    ({ self with tasks := self.tasks ++ [task] }, task)

/-- Stable insertion for an ascending sort by level: an element goes in
front of the first element of strictly greater level, so earlier input
elements stay in front of later ones with the same level. -/
def insertAsc (a : CascadeTask) : List CascadeTask → List CascadeTask
  | [] => [a]
  | b :: t => if a.level ≤ b.level then a :: b :: t else b :: insertAsc a t

/-- Stable ascending sort by `level`.  Python's `list.sort(key=...)` is a
stable sort by key; a stable sort's output is unique, so this insertion
sort computes exactly `pending_tasks.sort(key=lambda t: t.level)`. -/
def sortByLevel (l : List CascadeTask) : List CascadeTask := l.foldr insertAsc []

/-- `ProcessingQueue.get_next_task`: the first PENDING task after the
stable ascending sort by level, or `none` when nothing is PENDING. -/
def ProcessingQueue.get_next_task (self : ProcessingQueue) : Option CascadeTask :=
  (sortByLevel (self.tasks.filter (fun t => t.status = ProcessingStatus.PENDING))).head?

/-- Insert a key into the `completed_tables` set. -/
def addCompleted (keys : List String) (k : String) : List String :=
  if k ∈ keys then keys else keys ++ [k]

/-- `ProcessingQueue.mark_completed`. -/
def ProcessingQueue.mark_completed (self : ProcessingQueue) (table_key : String) :
    ProcessingQueue :=
  match self.get_task table_key with
  | none => self
  | some _ =>
    { self with
      tasks := updateFirst (fun t => t.table_key = table_key)
        (fun t => { t with status := ProcessingStatus.COMPLETED }) self.tasks,
      completed_tables := addCompleted self.completed_tables table_key }

/-- `ProcessingQueue.mark_processing`. -/
def ProcessingQueue.mark_processing (self : ProcessingQueue) (table_key : String) :
    ProcessingQueue :=
  { self with
    tasks := updateFirst (fun t => t.table_key = table_key)
      (fun t => { t with status := ProcessingStatus.PROCESSING }) self.tasks }

/-- `ProcessingQueue.has_pending_tasks`. -/
def ProcessingQueue.has_pending_tasks (self : ProcessingQueue) : Bool :=
  self.tasks.any (fun t => t.status = ProcessingStatus.PENDING)

/-- The first element of a list achieving the minimal level, preferring
earlier elements on ties; characterises the head of the stable sort. -/
def pickFirstMin : List CascadeTask → Option CascadeTask
  | [] => none
  | a :: l =>
    match pickFirstMin l with
    | none => some a
    | some m => if a.level ≤ m.level then some a else some m

/-- The `table_levels` dict: an insertion-ordered association list from
table key to level. -/
abbrev Levels := List (String × Nat)

/-- Dict lookup in `table_levels`. -/
def lookupLevel (m : Levels) (k : String) : Option Nat :=
  (m.find? (fun p => p.1 = k)).map (fun p => p.2)

/-- Dict assignment `table_levels[k] = v` (update in place or append). -/
def setLevel (m : Levels) (k : String) (v : Nat) : Levels :=
  if m.any (fun p => p.1 = k) then
    updateFirst (fun p => p.1 = k) (fun p => (p.1, v)) m
  else m ++ [(k, v)]

/-- `utils.db_util_types.Hierarchy`, restricted to the fields the verified
operations consult (`hierarchy_paths` is never read by them). -/
structure Hierarchy where
  root_table : DbTable
  relationships : List Relationship
  table_levels : Levels
deriving DecidableEq

/-- The body of `rebuild_table_levels`' `for rel in self.relationships`
loop, threading the levels dict and the `changed` flag. -/
def levelStep (acc : Levels × Bool) (rel : Relationship) : Levels × Bool :=
  let parent_key := tableKey rel.parent_table
  let referenced_key := tableKey rel.referenced_table
  match lookupLevel acc.1 referenced_key with
  | none => acc
  | some l =>
    let min_parent_level := l + 1
    match lookupLevel acc.1 parent_key with
    | none => (setLevel acc.1 parent_key min_parent_level, true)
    | some p =>
      if p < min_parent_level then (setLevel acc.1 parent_key min_parent_level, true)
      else acc

/-- One full pass of `rebuild_table_levels` over the relationship list,
starting with `changed = False`. -/
def levelPass (rels : List Relationship) (m : Levels) : Levels × Bool :=
  rels.foldl levelStep (m, false)

/-- The `while changed and iteration < max_iterations` loop.  The boolean
result is `true` when the loop exited because a full pass changed nothing
(a fixed point was reached) and `false` when the iteration cap cut it off
with changes still pending. -/
def rebuildLoop (rels : List Relationship) : Nat → Levels → Levels × Bool
  | 0, m => (m, false)
  | fuel + 1, m =>
    let r := levelPass rels m
    if r.2 then rebuildLoop rels fuel r.1 else (r.1, true)

/-- `Hierarchy.rebuild_table_levels`: clear the levels, set the root to 0,
then run up to `max_iterations = 10` passes. -/
def Hierarchy.rebuild_table_levels (self : Hierarchy) : Levels × Bool :=
  rebuildLoop self.relationships 10 [(tableKey self.root_table, 0)]

/-- Add a table under its key unless the key is already present, keeping
insertion order (`if parent_key not in table_key_to_table: ...`). -/
def addTableOnce (acc : List (String × DbTable)) (t : DbTable) :
    List (String × DbTable) :=
  if acc.any (fun p => p.1 = tableKey t) then acc else acc ++ [(tableKey t, t)]

/-- One relationship's contribution to `all_tables`: the parent table,
then the referenced table, each added once. -/
def collectStep (acc : List (String × DbTable)) (rel : Relationship) :
    List (String × DbTable) :=
  addTableOnce (addTableOnce acc rel.parent_table) rel.referenced_table

/-- The `all_tables` / `table_key_to_table` collection of
`get_deletion_order`: the root first, then for each relationship its
parent table and then its referenced table, each added once. -/
def collectTables (self : Hierarchy) : List (String × DbTable) :=
  self.relationships.foldl collectStep [(tableKey self.root_table, self.root_table)]

/-- Stable insertion for the descending sort by level: an element goes in
front of the first element of less-or-equal level only when its own level
is at least as large, so earlier input elements stay in front of later
ones with the same level. -/
def insertDesc (a : String × Nat) : List (String × Nat) → List (String × Nat)
  | [] => [a]
  | b :: t => if b.2 ≤ a.2 then a :: b :: t else b :: insertDesc a t

/-- Stable descending sort by level.  Python's
`sort(key=lambda x: x[1], reverse=True)` is a stable descending sort by
key; a stable sort's output is unique, so this insertion sort computes
exactly the source's ordering. -/
def sortDescByLevel (l : List (String × Nat)) : List (String × Nat) := l.foldr insertDesc []

/-- Lookup in the `table_key_to_table` dict. -/
def lookupTable (assoc : List (String × DbTable)) (k : String) : Option DbTable :=
  (assoc.find? (fun p => p.1 = k)).map (fun p => p.2)

/-- `Hierarchy.get_deletion_order`: collect all tables, pair each key with
`table_levels.get(key, 0)`, sort by level descending (stable), and map the
keys back through the table dict.  Every key of the sorted list is a key
of the association by construction, so the `getD` default is never
taken. -/
def Hierarchy.get_deletion_order (self : Hierarchy) : List DbTable :=
  let assoc := collectTables self
  let tables_with_levels :=
    assoc.map (fun p => (p.1, (lookupLevel self.table_levels p.1).getD 0))
  let sorted := sortDescByLevel tables_with_levels
  sorted.map (fun p => (lookupTable assoc p.1).getD ⟨"", "", none⟩)

/-- `data_cleanup_types.RelationshipMap`. -/
structure RelationshipMap where
  relationships_by_parent : List (String × List Relationship)
deriving DecidableEq

/-- Append a relationship under the referenced table's key. -/
def appendRel (m : List (String × List Relationship)) (k : String)
    (rel : Relationship) : List (String × List Relationship) :=
  if m.any (fun p => p.1 = k) then
    updateFirst (fun p => p.1 = k) (fun p => (p.1, p.2 ++ [rel])) m
  else m ++ [(k, [rel])]

/-- `RelationshipMap.from_hierarchy`. -/
def RelationshipMap.from_hierarchy (h : Hierarchy) : RelationshipMap :=
  ⟨h.relationships.foldl
    (fun m rel => appendRel m (tableKey rel.referenced_table) rel) []⟩

/-- `RelationshipMap.get_child_relationships`. -/
def RelationshipMap.get_child_relationships (self : RelationshipMap)
    (parent_table_key : String) : List Relationship :=
  ((self.relationships_by_parent.find? (fun p => p.1 = parent_table_key)).map
    (fun p => p.2)).getD []

/-- `data_cleanup_config.CleanupConfig`, restricted to the two numeric
knobs the planner consults (`batch_threshold = 0` disables batching). -/
structure CleanupConfig where
  batch_size : Int
  batch_threshold : Int
deriving DecidableEq

/-- The external database, abstracted: a query string either returns rows
or raises. -/
abbrev Oracle := String → Except String (List Row)

/-- `data_cleanup_utils._execute_referenced_values_query`: the
`try/except` wrapper that turns a raised query into an empty result. -/
def _execute_referenced_values_query (oracle : Oracle) (query : String) : List Row :=
  match oracle query with
  | .ok rows => rows
  | .error _ => []

/-- `", ".join([f"[{col.column_name}]" for col in referenced_columns])`. -/
def refColumnsSql (referenced_columns : List DbColumn) : String :=
  String.intercalate ", " (referenced_columns.map (fun col => "[" ++ col.column_name ++ "]"))

/-- The `pk_select` fragment of `_find_child_primary_keys_single_query`. -/
def pkSelectSql (pk_columns : List DbColumn) : String :=
  match pk_columns with
  | [c] => "[" ++ c.column_name ++ "]"
  | cs => String.intercalate ", " (cs.map (fun col => "[" ++ col.column_name ++ "]"))

/-- The single-query text of `get_referenced_column_values` (8-space
indentation as in the source's f-string). -/
def refQuerySingleText (parent_table : DbTable) (ref_columns_sql where_clause : String) :
    String :=
  "\n        SELECT DISTINCT " ++ ref_columns_sql ++ "\n        FROM ["
    ++ parent_table.schema_name ++ "].[" ++ parent_table.table_name
    ++ "]\n        WHERE " ++ where_clause ++ "\n        "

/-- The per-batch query text of `_process_referenced_values_in_batches`
(12-space indentation as in the source's f-string). -/
def refQueryBatchText (parent_table : DbTable) (ref_columns_sql where_clause : String) :
    String :=
  "\n            SELECT DISTINCT " ++ ref_columns_sql ++ "\n            FROM ["
    ++ parent_table.schema_name ++ "].[" ++ parent_table.table_name
    ++ "]\n            WHERE " ++ where_clause ++ "\n            "

/-- The query text of `_find_child_primary_keys_single_query` (4-space
indentation as in the source's f-string). -/
def childQueryText (child_table : DbTable) (pk_select where_clause : String) : String :=
  "\n    SELECT DISTINCT " ++ pk_select ++ "\n    FROM ["
    ++ child_table.schema_name ++ "].[" ++ child_table.table_name
    ++ "]\n    WHERE " ++ where_clause ++ "\n    "

/-- `data_cleanup_utils._process_referenced_values_in_batches`: one query
per `batch_size` chunk (`set(batch)` modelled by `dedupFirst`), results
concatenated and deduplicated preserving order. -/
def _process_referenced_values_in_batches (oracle : Oracle) (parent_table : DbTable)
    (parent_ids : List Value) (ref_columns_sql : String) (pk_columns : List DbColumn)
    (batch_size : Int) : List Row :=
  let all_results := ((chunkList batch_size.toNat parent_ids).map (fun batch =>
    _execute_referenced_values_query oracle
      (refQueryBatchText parent_table ref_columns_sql
        (_build_pk_where_clause pk_columns (dedupFirst batch))))).flatten
  dedupFirst all_results

/-- `data_cleanup_utils.get_referenced_column_values`. -/
def get_referenced_column_values (oracle : Oracle) (parent_table : DbTable)
    (parent_ids : List Value) (referenced_columns : List DbColumn)
    (config : CleanupConfig) : List Row :=
  match parent_table.primary_key with
  | none => []
  | some pk =>
    if pk.columns = [] then []
    else
      let ref_columns_sql := refColumnsSql referenced_columns
      if 0 < config.batch_threshold ∧ config.batch_threshold ≤ (parent_ids.length : Int) then
        _process_referenced_values_in_batches oracle parent_table parent_ids
          ref_columns_sql pk.columns config.batch_size
      else
        _execute_referenced_values_query oracle
          (refQuerySingleText parent_table ref_columns_sql
            (_build_pk_where_clause pk.columns parent_ids))

/-- `data_cleanup_utils._find_child_primary_keys_single_query`.  The
`try` block covers the fetch and the set comprehension, so a raised query
and a `row[0]` on an empty row both leave the result empty. -/
def _find_child_primary_keys_single_query (oracle : Oracle) (child_table : DbTable)
    (foreign_key_columns : List DbColumn) (referenced_values : List Row) : List Value :=
  match child_table.primary_key with
  | none => []
  | some pk =>
    if pk.columns = [] then []
    else
      let where_clause := build_fk_where_clause foreign_key_columns referenced_values
      if where_clause = "1=0" then []
      else
        match oracle (childQueryText child_table (pkSelectSql pk.columns) where_clause) with
        | .error _ => []
        | .ok rows =>
          match pk.columns with
          | [_] =>
            if rows.any (fun row => row = []) then []
            else dedupFirst (rows.map (fun row => Value.scalar (row.headD Scalar.sNull)))
          | _ => dedupFirst (rows.map Value.tup)

/-- `data_cleanup_utils._process_child_records_in_batches`: the per-chunk
child-PK sets unioned into one set. -/
def _process_child_records_in_batches (oracle : Oracle) (child_table : DbTable)
    (foreign_key_columns : List DbColumn) (referenced_values : List Row)
    (batch_size : Int) : List Value :=
  ((chunkList batch_size.toNat referenced_values).map (fun batch =>
    _find_child_primary_keys_single_query oracle child_table foreign_key_columns
      batch)).foldl setUnion []

/-- `data_cleanup_utils.find_child_primary_keys`. -/
def find_child_primary_keys (oracle : Oracle) (child_table : DbTable)
    (foreign_key_columns : List DbColumn) (referenced_values : List Row)
    (config : CleanupConfig) : List Value :=
  match child_table.primary_key with
  | none => []
  | some pk =>
    if pk.columns = [] then []
    else if 0 < config.batch_threshold
        ∧ config.batch_threshold ≤ (referenced_values.length : Int) then
      _process_child_records_in_batches oracle child_table foreign_key_columns
        referenced_values config.batch_size
    else
      _find_child_primary_keys_single_query oracle child_table foreign_key_columns
        referenced_values

/-- One relationship step of the planner's inner
`for relationship in child_relationships` loop.  The source reads
`task.ids` and `task.level` through the live task object, so the current
task is re-read from the queue by key on every step (a self-referencing
relationship merges into the task being processed). -/
def processRelationship (oracle : Oracle) (config : CleanupConfig) (task_key : String)
    (q : ProcessingQueue) (relationship : Relationship) : ProcessingQueue :=
  match q.get_task task_key with
  | none => q
  | some task =>
    let referenced_values := get_referenced_column_values oracle
      relationship.referenced_table task.ids relationship.referenced_columns config
    if referenced_values = [] then q
    else
      let child_pk_values := find_child_primary_keys oracle relationship.parent_table
        relationship.parent_columns referenced_values config
      if child_pk_values = [] then q
      else (q.add_task relationship.parent_table child_pk_values (task.level + 1)).1

/-- The planner's inner loop over all child relationships of the current
table. -/
def processRelationships (oracle : Oracle) (config : CleanupConfig) (task_key : String)
    (rels : List Relationship) (q : ProcessingQueue) : ProcessingQueue :=
  rels.foldl (processRelationship oracle config task_key) q

/-- The state threaded through `calculate_operations`' `while` loop. -/
structure LoopState where
  queue : ProcessingQueue
  iteration : Nat
deriving DecidableEq

/-- How a bounded run of the planner loop ended. -/
inductive LoopExit where
  | drained
  | capped
  | outOfFuel
deriving DecidableEq

/-- The `while queue.has_pending_tasks()` loop of
`calculate_operations`, run for at most `fuel` iterations.  `drained`
models the `while` condition turning false, `capped` the
`if iteration > 1000: break` safety check, and `outOfFuel` a loop that is
still running after `fuel` iterations.  The two `continue` paths (a
dequeued task with an empty ID set, and a table without child
relationships) jump back to the `while` test without reaching the safety
check, exactly as in the source. -/
def runLoop (oracle : Oracle) (rm : RelationshipMap) (config : CleanupConfig) :
    Nat → LoopState → LoopState × LoopExit
  | 0, st => (st, LoopExit.outOfFuel)
  | fuel + 1, st =>
    if st.queue.has_pending_tasks then
      let iter := st.iteration + 1
      match st.queue.get_next_task with
      | none => runLoop oracle rm config fuel ⟨st.queue, iter⟩
      | some task =>
        if task.ids = [] then runLoop oracle rm config fuel ⟨st.queue, iter⟩
        else
          let q1 := st.queue.mark_processing task.table_key
          let child_relationships := rm.get_child_relationships task.table_key
          if child_relationships = [] then
            runLoop oracle rm config fuel ⟨q1.mark_completed task.table_key, iter⟩
          else
            let q2 := processRelationships oracle config task.table_key
              child_relationships q1
            let q3 := q2.mark_completed task.table_key
            if iter > 1000 then (⟨q3, iter⟩, LoopExit.capped)
            else runLoop oracle rm config fuel ⟨q3, iter⟩
    else (st, LoopExit.drained)

/-- A root table with a primary key, used for concrete runs. -/
def customersTable : DbTable :=
  ⟨"dbo", "Customers", some ⟨"PK_Customers", [⟨"customer_id", "int"⟩]⟩⟩

/-- The queue `calculate_operations` builds when the initial ID fetch
returns no rows: `queue.add_task(root_table, set([]), level=0)` on a fresh
queue. -/
def emptySeedQueue : ProcessingQueue :=
  (ProcessingQueue.empty.add_task customersTable [] 0).1

/-- A second concrete table (a child of `customersTable` via
`customer_id`). -/
def ordersTable : DbTable :=
  ⟨"dbo", "Orders", some ⟨"PK_Orders", [⟨"order_id", "int"⟩]⟩⟩

/-- A third concrete table, used as a deeper child. -/
def orderItemsTable : DbTable :=
  ⟨"dbo", "OrderItems", some ⟨"PK_OrderItems", [⟨"order_item_id", "int"⟩]⟩⟩

/-- A concrete foreign-key relationship: `Orders.customer_id` references
`Customers.customer_id`. -/
def ordersRel : Relationship :=
  ⟨"FK_Orders_Customers", ordersTable, [⟨"customer_id", "int"⟩],
   customersTable, [⟨"customer_id", "int"⟩]⟩

/-- A self-referencing relationship (an `Employee.manager_id` pattern):
the parent and the referenced table coincide. -/
def selfRel : Relationship :=
  ⟨"FK_Customers_Customers", customersTable, [⟨"parent_customer_id", "int"⟩],
   customersTable, [⟨"customer_id", "int"⟩]⟩

/-- A hierarchy whose only relationship is self-referencing. -/
def selfHierarchy : Hierarchy := ⟨customersTable, [selfRel], []⟩

/-- A two-table acyclic hierarchy. -/
def ordersHierarchy : Hierarchy := ⟨customersTable, [ordersRel], []⟩

/-- Two concrete pending tasks at different levels and the queue holding
them, used to exercise `get_next_task`. -/
def taskLevelTwo : CascadeTask :=
  ⟨customersTable, "dbo.Customers", [Value.scalar (Scalar.sInt 1)],
   ProcessingStatus.PENDING, 2⟩

def taskLevelOne : CascadeTask :=
  ⟨ordersTable, "dbo.Orders", [Value.scalar (Scalar.sInt 2)],
   ProcessingStatus.PENDING, 1⟩

def twoTaskQueue : ProcessingQueue := ⟨[taskLevelTwo, taskLevelOne], []⟩

/-- An oracle on which every query raises. -/
def failingOracle : Oracle := fun _ => Except.error "connection reset"

/-- A PENDING task for the customers table holding one ID. -/
def pendingTask : CascadeTask :=
  ⟨customersTable, "dbo.Customers", [Value.scalar (Scalar.sInt 1)],
   ProcessingStatus.PENDING, 0⟩

def pendingQueue : ProcessingQueue := ⟨[pendingTask], []⟩

/-- A configuration with batching disabled (`batch_threshold = 0`). -/
def noBatchConfig : CleanupConfig := ⟨1000, 0⟩

/-- An oracle that answers the referenced-value query for `pendingTask`
and raises on everything else. -/
def mixedOracle : Oracle := fun q =>
  if q = refQuerySingleText customersTable (refColumnsSql ordersRel.referenced_columns)
      (_build_pk_where_clause (pkColumnsOf customersTable) pendingTask.ids)
  then Except.ok [[Scalar.sInt 1]]
  else Except.error "boom"

/-- Concrete data for exercising the batch/non-batch equivalence: a parent
table with rows keyed 1 and 2, a child table, and the ID sets queried. -/
def eqTblRows : List Row := [[Scalar.sInt 1, Scalar.sInt 10], [Scalar.sInt 2, Scalar.sInt 20]]

def eqChildRows : List Row := [[Scalar.sInt 100, Scalar.sInt 10]]

def eqMatchV : Row → Value → Bool :=
  fun r v => decide (Value.scalar (r.headD Scalar.sNull) = v)

def eqProj : Row → Row := fun r => r.drop 1

def eqMatchT : Row → Row → Bool := fun r t => decide (r.drop 1 = t)

def eqParentIds : List Value :=
  [Value.scalar (Scalar.sInt 1), Value.scalar (Scalar.sInt 2), Value.scalar (Scalar.sInt 3)]

def eqVals : List Row := [[Scalar.sInt 10]]

/-- The batch/non-batch equivalence claim assumes each query returns
exactly the rows matching its predicate; this models such an answer for a
referenced-value query over the ID set `S`: the `SELECT DISTINCT`
projection of the abstract table's rows matching some ID of `S` under an
abstract per-ID match relation. -/
def refQueryModel (tblRows : List Row) (matchFn : Row → Value → Bool)
    (proj : Row → Row) (S : List Value) : List Row :=
  dedupFirst ((tblRows.filter (fun r => S.any (matchFn r))).map proj)

/-- An oracle answering exactly the queries of the batch/non-batch
equivalence scenario with the rows matching their predicates, and raising
on anything else. -/
def equivOracle : Oracle := fun q =>
  if q = refQueryBatchText customersTable (refColumnsSql [⟨"customer_id", "int"⟩])
      (_build_pk_where_clause [⟨"customer_id", "int"⟩] (dedupFirst (eqParentIds.take 2)))
  then Except.ok (refQueryModel eqTblRows eqMatchV eqProj (dedupFirst (eqParentIds.take 2)))
  else if q = refQueryBatchText customersTable (refColumnsSql [⟨"customer_id", "int"⟩])
      (_build_pk_where_clause [⟨"customer_id", "int"⟩] (dedupFirst (eqParentIds.drop 2)))
  then Except.ok (refQueryModel eqTblRows eqMatchV eqProj (dedupFirst (eqParentIds.drop 2)))
  else if q = refQuerySingleText customersTable (refColumnsSql [⟨"customer_id", "int"⟩])
      (_build_pk_where_clause [⟨"customer_id", "int"⟩] eqParentIds)
  then Except.ok (refQueryModel eqTblRows eqMatchV eqProj eqParentIds)
  else if q = childQueryText ordersTable (pkSelectSql [⟨"order_id", "int"⟩])
      (build_fk_where_clause [⟨"customer_id", "int"⟩] eqVals)
  then Except.ok (eqChildRows.filter (fun r => eqVals.any (eqMatchT r)))
  else Except.error "unexpected query"

/-! ### Library lemmas about the set and chunk models -/

theorem mem_dedupFirstAux [DecidableEq α] (seen : List α) (l : List α) (x : α) :
    x ∈ dedupFirstAux seen l ↔ x ∈ l ∧ x ∉ seen := by
  induction l generalizing seen with
  | nil => simp [dedupFirstAux]
  | cons a l ih =>
    simp only [dedupFirstAux]
    by_cases h : a ∈ seen
    · rw [if_pos h, ih]
      constructor
      · rintro ⟨hx, hs⟩
        exact ⟨List.mem_cons_of_mem _ hx, hs⟩
      · rintro ⟨hx, hs⟩
        rcases List.mem_cons.mp hx with rfl | hx
        · exact absurd h hs
        · exact ⟨hx, hs⟩
    · rw [if_neg h]
      simp only [List.mem_cons, ih]
      constructor
      · rintro (rfl | ⟨hx, hs⟩)
        · exact ⟨Or.inl rfl, h⟩
        · exact ⟨Or.inr hx, fun hm => hs (Or.inr hm)⟩
      · rintro ⟨rfl | hx, hs⟩
        · exact Or.inl rfl
        · by_cases hxa : x = a
          · exact Or.inl hxa
          · exact Or.inr ⟨hx, fun hm => hm.elim hxa hs⟩

theorem mem_dedupFirst [DecidableEq α] (l : List α) (x : α) :
    x ∈ dedupFirst l ↔ x ∈ l := by
  simp [dedupFirst, mem_dedupFirstAux]

theorem nodup_dedupFirstAux [DecidableEq α] (seen : List α) (l : List α) :
    (dedupFirstAux seen l).Nodup := by
  induction l generalizing seen with
  | nil => simp [dedupFirstAux]
  | cons a l ih =>
    simp only [dedupFirstAux]
    by_cases h : a ∈ seen
    · rw [if_pos h]; exact ih seen
    · rw [if_neg h]
      refine List.nodup_cons.mpr ⟨fun hmem => ?_, ih (a :: seen)⟩
      exact ((mem_dedupFirstAux _ _ _).mp hmem).2 (List.mem_cons_self a seen)

theorem nodup_dedupFirst [DecidableEq α] (l : List α) : (dedupFirst l).Nodup :=
  nodup_dedupFirstAux [] l

theorem mem_setUnion [DecidableEq α] (a b : List α) (x : α) :
    x ∈ setUnion a b ↔ x ∈ a ∨ x ∈ b := by
  simp only [setUnion, List.mem_append, List.mem_filter, decide_eq_true_eq]
  constructor
  · rintro (hx | ⟨hx, _⟩)
    · exact Or.inl hx
    · exact Or.inr hx
  · rintro (hx | hx)
    · exact Or.inl hx
    · by_cases hxa : x ∈ a
      · exact Or.inl hxa
      · exact Or.inr ⟨hx, hxa⟩

theorem length_lt_setUnion_iff [DecidableEq α] (a b : List α) :
    a.length < (setUnion a b).length ↔ ¬ b ⊆ a := by
  simp only [setUnion, List.length_append, Nat.lt_add_right_iff_pos]
  rw [List.length_pos_iff_exists_mem]
  constructor
  · rintro ⟨x, hx⟩ hsub
    rcases List.mem_filter.mp hx with ⟨hxb, hxa⟩
    exact (decide_eq_true_eq.mp hxa) (hsub hxb)
  · intro hsub
    simp only [List.subset_def] at hsub
    push_neg at hsub
    rcases hsub with ⟨x, hxb, hxa⟩
    exact ⟨x, List.mem_filter.mpr ⟨hxb, decide_eq_true_eq.mpr hxa⟩⟩

theorem setUnion_self_of_subset [DecidableEq α] (a b : List α) (h : b ⊆ a) :
    setUnion a b = a := by
  have hnil : b.filter (fun x => decide (x ∉ a)) = [] := by
    rw [List.filter_eq_nil_iff]
    intro x hx
    simp [h hx]
  simp only [setUnion, hnil, List.append_nil]

theorem chunkGo_flatten (n : Nat) (hn : n ≠ 0) :
    ∀ (fuel : Nat) (l : List α), l.length ≤ fuel → (chunkGo n fuel l).flatten = l := by
  intro fuel
  induction fuel with
  | zero =>
    intro l hl
    have : l = [] := List.eq_nil_of_length_eq_zero (Nat.le_zero.mp hl)
    simp [this, chunkGo]
  | succ fuel ih =>
    intro l hl
    cases l with
    | nil => simp [chunkGo]
    | cons a t =>
      simp only [chunkGo, List.flatten_cons]
      rw [ih]
      · exact List.take_append_drop n (a :: t)
      · have h1 : ((a :: t).drop n).length = t.length + 1 - n := by
          simp [List.length_drop]
        simp only [List.length_cons] at hl
        rw [h1]
        omega

theorem chunkList_flatten (n : Nat) (hn : n ≠ 0) (l : List α) :
    (chunkList n l).flatten = l :=
  chunkGo_flatten n hn l.length l le_rfl

theorem ne_nil_of_mem_chunkGo (n : Nat) (hn : n ≠ 0) :
    ∀ (fuel : Nat) (l : List α) (c : List α), c ∈ chunkGo n fuel l → c ≠ [] := by
  intro fuel
  induction fuel with
  | zero => intro l c hc; simp [chunkGo] at hc
  | succ fuel ih =>
    intro l c hc
    cases l with
    | nil => simp [chunkGo] at hc
    | cons a t =>
      simp only [chunkGo, List.mem_cons] at hc
      rcases hc with rfl | hc
      · cases n with
        | zero => exact absurd rfl hn
        | succ m => simp [List.take_succ_cons]
      · exact ih _ _ hc

theorem ne_nil_of_mem_chunkList (n : Nat) (hn : n ≠ 0) (l c : List α)
    (hc : c ∈ chunkList n l) : c ≠ [] :=
  ne_nil_of_mem_chunkGo n hn l.length l c hc

theorem mem_foldl_setUnion [DecidableEq α] (L : List (List α)) (acc : List α) (x : α) :
    x ∈ L.foldl setUnion acc ↔ x ∈ acc ∨ ∃ s ∈ L, x ∈ s := by
  induction L generalizing acc with
  | nil => simp
  | cons a L ih =>
    simp only [List.foldl_cons, ih, mem_setUnion, List.mem_cons]
    constructor
    · rintro ((hx | hx) | ⟨s, hs, hx⟩)
      · exact Or.inl hx
      · exact Or.inr ⟨a, Or.inl rfl, hx⟩
      · exact Or.inr ⟨s, Or.inr hs, hx⟩
    · rintro (hx | ⟨s, rfl | hs, hx⟩)
      · exact Or.inl (Or.inl hx)
      · exact Or.inl (Or.inr hx)
      · exact Or.inr ⟨s, hs, hx⟩

/-! ### C4 — string literal formatting in `format_id_list_for_sql` -/

/-- C4: the claim says single-column predicate values format a string by
quoting it with every embedded single quote doubled, so that `O'Brien`
survives predicate generation.  The source's `format_id_list_for_sql`
quotes the raw string without doubling embedded quotes: `O'Brien` renders
as `'O'Brien'`, not the claimed `'O''Brien'` (the multi-column builders do
escape, making the single-column path an inconsistency in the code).  The
`NULL` and numeric branches behave as claimed. -/
theorem claim_C4 :
    format_id_list_for_sql [Value.scalar (Scalar.sStr "O'Brien")] = "'O'Brien'"
    ∧ "'O'Brien'" ≠ "'O''Brien'"
    ∧ format_id_list_for_sql [Value.scalar Scalar.sNull] = "NULL"
    ∧ format_id_list_for_sql [Value.scalar (Scalar.sInt 42)] = "42"
    ∧ format_id_list_for_sql
        [Value.scalar (Scalar.sInt 7), Value.scalar Scalar.sNull,
         Value.scalar (Scalar.sStr "x")] = "7, NULL, 'x'" := by
  refine ⟨by decide, by decide, by decide, by decide, by decide⟩

/-! ### C10 — empty-input guards of the DELETE generators -/

/-- C10: `generate_delete_sql` returns the empty string whenever the ID set
is empty, the table has no primary key, or the primary key has no columns;
under the same conditions, or when `batch_size` is not positive,
`generate_batched_delete_sql` returns an empty list. -/
theorem claim_C10 (op : CleanupOperation) (bs : Int) :
    (op.ids = [] ∨ op.table.primary_key = none
        ∨ (∃ pk, op.table.primary_key = some pk ∧ pk.columns = []) →
      op.generate_delete_sql = "" ∧ op.generate_batched_delete_sql bs = [])
    ∧ (bs ≤ 0 → op.generate_batched_delete_sql bs = []) := by
  constructor
  · intro h
    have hguard : op.ids = [] ∨ pkColumnsOf op.table = [] := by
      rcases h with h | h | ⟨pk, hpk, hcols⟩
      · exact Or.inl h
      · exact Or.inr (by simp [pkColumnsOf, h])
      · exact Or.inr (by simp [pkColumnsOf, hpk, hcols])
    constructor
    · simp only [CleanupOperation.generate_delete_sql, if_pos hguard]
    · have : op.ids = [] ∨ pkColumnsOf op.table = [] ∨ bs ≤ 0 := by tauto
      simp only [CleanupOperation.generate_batched_delete_sql, if_pos this]
  · intro hbs
    have : op.ids = [] ∨ pkColumnsOf op.table = [] ∨ bs ≤ 0 := Or.inr (Or.inr hbs)
    simp only [CleanupOperation.generate_batched_delete_sql, if_pos this]

/-- Witness for C10 at concrete operations: an empty ID set yields `""` and
`[]`, and a non-positive batch size yields `[]` even with IDs present. -/
theorem claim_C10_witness :
    CleanupOperation.generate_delete_sql ⟨customersTable, []⟩ = ""
    ∧ CleanupOperation.generate_batched_delete_sql ⟨customersTable, []⟩ 1000 = []
    ∧ CleanupOperation.generate_batched_delete_sql
        ⟨customersTable, [Value.scalar (Scalar.sInt 1)]⟩ 0 = [] :=
  ⟨((claim_C10 ⟨customersTable, []⟩ 1000).1 (Or.inl rfl)).1,
   ((claim_C10 ⟨customersTable, []⟩ 1000).1 (Or.inl rfl)).2,
   (claim_C10 ⟨customersTable, [Value.scalar (Scalar.sInt 1)]⟩ 0).2 (by decide)⟩

/-! ### C5 — the `1=0` fallback of the predicate builders -/

/-- C5 counterexample: with a single-column key and an empty value set both
predicate builders render `[col] IN ()`, not the claimed always-false
literal `1=0` (the `1=0` fallback exists only in the multi-column
branch). -/
theorem claim_C5_counterexample :
    build_fk_where_clause [⟨"customer_id", "int"⟩] [] = "[customer_id] IN ()"
    ∧ _build_pk_where_clause [⟨"customer_id", "int"⟩] [] = "[customer_id] IN ()"
    ∧ "[customer_id] IN ()" ≠ "1=0" := by
  refine ⟨by decide, by decide, by decide⟩

/-- C5 (amended): a tuple producing no valid conditions contributes
nothing, and an empty predicate set renders as the always-false `1=0`, for
the foreign-key and both primary-key predicate builders — provided the key
has at least two columns, so that the multi-column branch applies.  A
single-column key with an empty value set instead renders `[col] IN ()`,
which matches no rows either but is not the literal `1=0`. -/
theorem claim_C5 (cols : List DbColumn) (vals : List Value) (rvals : List Row)
    (v : Value) (r : Row) (hcols : 2 ≤ cols.length) :
    (_build_pk_where_clause cols [] = "1=0"
      ∧ build_fk_where_clause cols [] = "1=0"
      ∧ _build_multi_column_pk_where_clause cols [] = "1=0")
    ∧ (tupleConditions cols (toTuple v) = [] →
        _build_pk_where_clause cols (v :: vals) = _build_pk_where_clause cols vals
        ∧ _build_multi_column_pk_where_clause cols (v :: vals)
            = _build_multi_column_pk_where_clause cols vals)
    ∧ (tupleConditions cols r = [] →
        build_fk_where_clause cols (r :: rvals) = build_fk_where_clause cols rvals) := by
  rcases cols with _ | ⟨c1, _ | ⟨c2, cs⟩⟩
  · simp at hcols
  · simp at hcols
  · refine ⟨⟨?_, ?_, ?_⟩, ?_, ?_⟩
    · simp [_build_pk_where_clause]
    · simp [build_fk_where_clause]
    · simp [_build_multi_column_pk_where_clause]
    · intro hconds
      constructor
      · simp [_build_pk_where_clause, List.filterMap_cons, hconds]
      · simp [_build_multi_column_pk_where_clause, List.filterMap_cons, hconds]
    · intro hconds
      simp [build_fk_where_clause, List.filterMap_cons, hconds]

/-- Witness for C5 at a concrete two-column key: the empty set renders
`1=0` and an empty tuple contributes nothing. -/
theorem claim_C5_witness :
    _build_pk_where_clause [⟨"a", "int"⟩, ⟨"b", "int"⟩] [] = "1=0"
    ∧ _build_multi_column_pk_where_clause [⟨"a", "int"⟩, ⟨"b", "int"⟩]
        [Value.tup [], Value.tup [Scalar.sInt 1, Scalar.sInt 2]]
      = _build_multi_column_pk_where_clause [⟨"a", "int"⟩, ⟨"b", "int"⟩]
        [Value.tup [Scalar.sInt 1, Scalar.sInt 2]] :=
  ⟨(claim_C5 [⟨"a", "int"⟩, ⟨"b", "int"⟩] [] [] (Value.tup []) [] (by decide)).1.1,
   ((claim_C5 [⟨"a", "int"⟩, ⟨"b", "int"⟩] [Value.tup [Scalar.sInt 1, Scalar.sInt 2]] []
      (Value.tup []) [] (by decide)).2.1 (by decide)).2⟩

/-! ### C9 — short tuples constrain only their own columns -/

theorem zip_append_left (cols extra : List α) (tup : List β)
    (hlen : tup.length ≤ cols.length) : (cols ++ extra).zip tup = cols.zip tup := by
  induction cols generalizing tup with
  | nil =>
    have : tup = [] := List.eq_nil_of_length_eq_zero (Nat.le_zero.mp hlen)
    simp [this]
  | cons c cs ih =>
    cases tup with
    | nil => simp
    | cons t ts =>
      simp only [List.cons_append, List.zip_cons_cons, List.cons.injEq, true_and]
      exact ih ts (by simpa using hlen)

theorem zip_take_length (cols : List α) (tup : List β) :
    (cols.take tup.length).zip tup = cols.zip tup := by
  induction cols generalizing tup with
  | nil => simp
  | cons c cs ih =>
    cases tup with
    | nil => simp
    | cons t ts => simp [List.zip_cons_cons, ih]

/-- C9: in multi-column predicate construction a value tuple shorter than
the key constrains only its first `len(tuple)` columns: the produced
conditions are unchanged by arbitrary extra trailing columns, coincide
with the conditions over the truncated column list, and number exactly
`len(tuple)`; consequently the OR-branches generated by
`_build_multi_column_pk_where_clause` and `build_fk_where_clause` are
independent of the trailing key columns, which are left unconstrained. -/
theorem claim_C9 (cols extra : List DbColumn) (tup : Row) (v : Value)
    (hlen : tup.length ≤ cols.length) :
    (tupleConditions (cols ++ extra) tup = tupleConditions cols tup
      ∧ tupleConditions cols tup = tupleConditions (cols.take tup.length) tup
      ∧ (tupleConditions cols tup).length = tup.length)
    ∧ (2 ≤ cols.length → toTuple v = tup →
        _build_multi_column_pk_where_clause (cols ++ extra) [v]
            = _build_multi_column_pk_where_clause cols [v]
        ∧ build_fk_where_clause (cols ++ extra) [tup] = build_fk_where_clause cols [tup]) := by
  have hzip : (cols ++ extra).zip tup = cols.zip tup := zip_append_left cols extra tup hlen
  have hconds : tupleConditions (cols ++ extra) tup = tupleConditions cols tup := by
    simp [tupleConditions, hzip]
  refine ⟨⟨hconds, ?_, ?_⟩, ?_⟩
  · simp [tupleConditions, zip_take_length]
  · simp only [tupleConditions, List.length_map, List.length_zip]
    omega
  · intro hc2 htv
    constructor
    · simp only [_build_multi_column_pk_where_clause, List.filterMap_cons,
        List.filterMap_nil, htv, hconds]
    · rcases cols with _ | ⟨c1, _ | ⟨c2, cs⟩⟩
      · simp at hc2
      · simp at hc2
      · simp only [List.cons_append] at hconds
        simp only [build_fk_where_clause, List.cons_append, List.filterMap_cons,
          List.filterMap_nil, hconds]

/-- Witness for C9: a one-element tuple against a two-column key produces
a single condition on the first column only, unchanged by a third
column. -/
theorem claim_C9_witness :
    tupleConditions [⟨"a", "int"⟩, ⟨"b", "int"⟩, ⟨"c", "int"⟩] [Scalar.sInt 5]
      = tupleConditions [⟨"a", "int"⟩, ⟨"b", "int"⟩] [Scalar.sInt 5]
    ∧ (tupleConditions [⟨"a", "int"⟩, ⟨"b", "int"⟩] [Scalar.sInt 5]).length = 1
    ∧ _build_multi_column_pk_where_clause
        [⟨"a", "int"⟩, ⟨"b", "int"⟩, ⟨"c", "int"⟩] [Value.tup [Scalar.sInt 5]]
      = _build_multi_column_pk_where_clause [⟨"a", "int"⟩, ⟨"b", "int"⟩]
          [Value.tup [Scalar.sInt 5]] :=
  ⟨(claim_C9 [⟨"a", "int"⟩, ⟨"b", "int"⟩] [⟨"c", "int"⟩] [Scalar.sInt 5]
      (Value.tup [Scalar.sInt 5]) (by decide)).1.1,
   (claim_C9 [⟨"a", "int"⟩, ⟨"b", "int"⟩] [⟨"c", "int"⟩] [Scalar.sInt 5]
      (Value.tup [Scalar.sInt 5]) (by decide)).1.2.2,
   ((claim_C9 [⟨"a", "int"⟩, ⟨"b", "int"⟩] [⟨"c", "int"⟩] [Scalar.sInt 5]
      (Value.tup [Scalar.sInt 5]) (by decide)).2 (by decide) (by decide)).1⟩

/-! ### C3 — merge semantics of `add_task` -/

theorem find?_append_none {p : α → Bool} (l l' : List α) (h : l.find? p = none) :
    (l ++ l').find? p = l'.find? p := by
  induction l with
  | nil => simp
  | cons a l ih =>
    cases hpa : p a with
    | true => simp [List.find?_cons, hpa] at h
    | false =>
      simp only [List.find?_cons, hpa] at h
      simpa [List.find?_cons, hpa] using ih h

theorem updateFirst_append_none {p : α → Bool} (f : α → α) (l l' : List α)
    (h : l.find? p = none) : updateFirst p f (l ++ l') = l ++ updateFirst p f l' := by
  induction l with
  | nil => simp
  | cons a l ih =>
    cases hpa : p a with
    | true => simp [List.find?_cons, hpa] at h
    | false =>
      simp only [List.find?_cons, hpa] at h
      simp [updateFirst, hpa, ih h]

theorem add_task_none (q : ProcessingQueue) (T : DbTable) (ids : List Value) (lv : Nat)
    (h : q.get_task (tableKey T) = none) :
    q.add_task T ids lv
      = ({ q with tasks := q.tasks
            ++ [⟨T, tableKey T, ids, ProcessingStatus.PENDING, lv⟩] },
         ⟨T, tableKey T, ids, ProcessingStatus.PENDING, lv⟩) := by
  simp only [ProcessingQueue.add_task, h]

theorem add_task_some (q : ProcessingQueue) (T : DbTable) (ids : List Value) (lv : Nat)
    (t : CascadeTask) (h : q.get_task (tableKey T) = some t) :
    q.add_task T ids lv
      = ({ q with tasks :=
            (updateFirst (fun u => u.table_key = tableKey T)
              (fun _ => mergeTask ids lv t) q.tasks) },
         mergeTask ids lv t) := by
  simp only [ProcessingQueue.add_task, h]

/-- C3: starting from a queue with no task for table `T`, two `add_task`
calls leave exactly one task for `T`, holding the union of the two ID
sets at the max of the two levels; repeating the same IDs leaves the ID
set unchanged; and on any queue a merge into a COMPLETED task resets it
to PENDING exactly when the merge strictly grew the ID set, that is, when
the new IDs are not a subset of the existing ones. -/
theorem claim_C3 (q : ProcessingQueue) (T : DbTable) (ids1 ids2 : List Value)
    (l1 l2 : Nat) (hq : q.get_task (tableKey T) = none) :
    ((((q.add_task T ids1 l1).1.add_task T ids2 l2).1.tasks.filter
        (fun t => t.table_key = tableKey T)).length = 1
      ∧ ((q.add_task T ids1 l1).1.add_task T ids2 l2).1.get_task (tableKey T)
          = some (((q.add_task T ids1 l1).1.add_task T ids2 l2).2)
      ∧ (∀ x, x ∈ (((q.add_task T ids1 l1).1.add_task T ids2 l2).2).ids
          ↔ x ∈ ids1 ∨ x ∈ ids2)
      ∧ (((q.add_task T ids1 l1).1.add_task T ids2 l2).2).level = max l1 l2)
    ∧ (((q.add_task T ids1 l1).1.add_task T ids1 l1).2).ids = ids1
    ∧ (∀ (q' : ProcessingQueue) (t : CascadeTask),
        q'.get_task (tableKey T) = some t → t.status = ProcessingStatus.COMPLETED →
        ((q'.add_task T ids2 l2).2).status
          = if ids2 ⊆ t.ids then ProcessingStatus.COMPLETED
            else ProcessingStatus.PENDING) := by
  have hq1 := add_task_none q T ids1 l1 hq
  set t1 : CascadeTask :=
    ⟨T, tableKey T, ids1, ProcessingStatus.PENDING, l1⟩ with ht1
  set Q1 : ProcessingQueue := { q with tasks := q.tasks ++ [t1] } with hQ1
  have hX : (q.add_task T ids1 l1).1 = Q1 := by rw [hq1]
  have hget1 : Q1.get_task (tableKey T) = some t1 := by
    show (q.tasks ++ [t1]).find? (fun u => u.table_key = tableKey T) = some t1
    rw [find?_append_none _ _ hq]
    simp [List.find?_cons, ht1]
  have hq2 := add_task_some Q1 T ids2 l2 t1 hget1
  have hupd : updateFirst (fun u => u.table_key = tableKey T)
      (fun _ => mergeTask ids2 l2 t1) Q1.tasks
      = q.tasks ++ [mergeTask ids2 l2 t1] := by
    show updateFirst _ _ (q.tasks ++ [t1]) = _
    rw [updateFirst_append_none _ _ _ hq]
    simp [updateFirst, ht1]
  have hmk : (mergeTask ids2 l2 t1).table_key = tableKey T := rfl
  refine ⟨⟨?_, ?_, ?_, ?_⟩, ?_, ?_⟩
  · rw [hX, hq2]
    simp only [hupd, List.filter_append]
    have h1 : q.tasks.filter (fun t => t.table_key = tableKey T) = [] := by
      rw [List.filter_eq_nil_iff]
      intro x hx
      have := List.find?_eq_none.mp hq x hx
      simpa using this
    simp [h1, hmk]
  · rw [hX, hq2]
    show (updateFirst (fun u => u.table_key = tableKey T)
        (fun _ => mergeTask ids2 l2 t1) Q1.tasks).find?
        (fun u => u.table_key = tableKey T) = some (mergeTask ids2 l2 t1)
    rw [hupd, find?_append_none _ _ hq]
    simp [List.find?_cons, hmk]
  · intro x
    rw [hX, hq2]
    show x ∈ setUnion t1.ids ids2 ↔ _
    rw [mem_setUnion]
  · rw [hX, hq2]
    show max t1.level l2 = max l1 l2
    rfl
  · rw [hX]
    have hq2' := add_task_some Q1 T ids1 l1 t1 hget1
    rw [hq2']
    show setUnion t1.ids ids1 = ids1
    exact setUnion_self_of_subset ids1 ids1 (List.Subset.refl ids1)
  · intro q' t hget hcomp
    have hq2' := add_task_some q' T ids2 l2 t hget
    rw [hq2']
    show (if t.status = ProcessingStatus.COMPLETED
        ∧ t.ids.length < (setUnion t.ids ids2).length
      then ProcessingStatus.PENDING else t.status) = _
    by_cases hsub : ids2 ⊆ t.ids
    · have hnlt : ¬ t.ids.length < (setUnion t.ids ids2).length := by
        rw [length_lt_setUnion_iff]
        simpa using hsub
      rw [if_neg (fun hc => hnlt hc.2), if_pos hsub]
      exact hcomp
    · have hlt : t.ids.length < (setUnion t.ids ids2).length :=
        (length_lt_setUnion_iff t.ids ids2).mpr hsub
      rw [if_pos ⟨hcomp, hlt⟩, if_neg hsub]

/-- Witness for C3 at a concrete empty queue and integer IDs. -/
theorem claim_C3_witness :
    (((ProcessingQueue.empty.add_task customersTable
          [Value.scalar (Scalar.sInt 1)] 0).1.add_task customersTable
          [Value.scalar (Scalar.sInt 2)] 1).1.tasks.filter
        (fun t => t.table_key = tableKey customersTable)).length = 1
    ∧ (((ProcessingQueue.empty.add_task customersTable
          [Value.scalar (Scalar.sInt 1)] 0).1.add_task customersTable
          [Value.scalar (Scalar.sInt 2)] 1).2).level = max 0 1
    ∧ (∀ x, x ∈ (((ProcessingQueue.empty.add_task customersTable
          [Value.scalar (Scalar.sInt 1)] 0).1.add_task customersTable
          [Value.scalar (Scalar.sInt 2)] 1).2).ids
        ↔ x ∈ [Value.scalar (Scalar.sInt 1)] ∨ x ∈ [Value.scalar (Scalar.sInt 2)]) :=
  ⟨(claim_C3 ProcessingQueue.empty customersTable [Value.scalar (Scalar.sInt 1)]
      [Value.scalar (Scalar.sInt 2)] 0 1 rfl).1.1,
   (claim_C3 ProcessingQueue.empty customersTable [Value.scalar (Scalar.sInt 1)]
      [Value.scalar (Scalar.sInt 2)] 0 1 rfl).1.2.2.2,
   (claim_C3 ProcessingQueue.empty customersTable [Value.scalar (Scalar.sInt 1)]
      [Value.scalar (Scalar.sInt 2)] 0 1 rfl).1.2.2.1⟩

/-! ### C7 — `get_next_task` selects the first minimal-level PENDING task -/

theorem insertAsc_ne_nil (a : CascadeTask) (l : List CascadeTask) :
    insertAsc a l ≠ [] := by
  cases l with
  | nil => simp [insertAsc]
  | cons b t =>
    simp only [insertAsc]
    split <;> simp

theorem sortByLevel_eq_nil_iff (l : List CascadeTask) :
    sortByLevel l = [] ↔ l = [] := by
  cases l with
  | nil => simp [sortByLevel]
  | cons a t =>
    simp only [sortByLevel, List.foldr_cons]
    exact iff_of_false (insertAsc_ne_nil _ _) (by simp)

theorem head?_insertAsc (a b : CascadeTask) (t : List CascadeTask) :
    (insertAsc a (b :: t)).head? = some (if a.level ≤ b.level then a else b) := by
  by_cases h : a.level ≤ b.level <;> simp [insertAsc, h]

theorem head?_sortByLevel (l : List CascadeTask) :
    (sortByLevel l).head? = pickFirstMin l := by
  induction l with
  | nil => rfl
  | cons a l ih =>
    show (insertAsc a (sortByLevel l)).head? = _
    cases hs : sortByLevel l with
    | nil =>
      have hl : l = [] := (sortByLevel_eq_nil_iff l).mp hs
      subst hl
      simp [insertAsc, pickFirstMin]
    | cons b t =>
      rw [hs] at ih
      have hb : pickFirstMin l = some b := by simpa using ih.symm
      rw [head?_insertAsc]
      simp only [pickFirstMin, hb]
      split <;> rfl

theorem pickFirstMin_eq_none (l : List CascadeTask) :
    pickFirstMin l = none ↔ l = [] := by
  cases l with
  | nil => simp [pickFirstMin]
  | cons a t =>
    have hne : pickFirstMin (a :: t) ≠ none := by
      cases h : pickFirstMin t with
      | none => simp [pickFirstMin, h]
      | some m =>
        simp only [pickFirstMin, h]
        split <;> simp
    exact iff_of_false hne (by simp)

theorem pickFirstMin_spec (l : List CascadeTask) :
    ∀ t, pickFirstMin l = some t →
      t ∈ l ∧ (∀ u ∈ l, t.level ≤ u.level)
        ∧ l.find? (fun u => u.level ≤ t.level) = some t := by
  induction l with
  | nil => intro t h; simp [pickFirstMin] at h
  | cons a l ih =>
    intro t h
    cases hm : pickFirstMin l with
    | none =>
      have hl : l = [] := (pickFirstMin_eq_none l).mp hm
      subst hl
      simp only [pickFirstMin] at h
      cases h
      refine ⟨by simp, by simp, by simp [List.find?_cons]⟩
    | some m =>
      simp only [pickFirstMin, hm] at h
      obtain ⟨hmem, hmin, hfind⟩ := ih m hm
      by_cases hal : a.level ≤ m.level
      · rw [if_pos hal] at h
        cases h
        refine ⟨List.mem_cons_self _ _, ?_, ?_⟩
        · intro u hu
          rcases List.mem_cons.mp hu with rfl | hu
          · exact le_rfl
          · exact le_trans hal (hmin u hu)
        · simp [List.find?_cons]
      · rw [if_neg hal] at h
        cases h
        have hma : t.level ≤ a.level := le_of_lt (lt_of_not_le hal)
        refine ⟨List.mem_cons_of_mem _ hmem, ?_, ?_⟩
        · intro u hu
          rcases List.mem_cons.mp hu with rfl | hu
          · exact hma
          · exact hmin u hu
        · have hpa : ¬ (a.level ≤ t.level) := by
            intro hc
            exact hal (le_trans hc (hmin t hmem))
          simp [List.find?_cons, hpa, hfind]

/-- C7: `get_next_task` returns `none` exactly when no task is PENDING;
otherwise it returns a PENDING task of the queue whose level is minimal
among all PENDING tasks, and among the PENDING tasks it is the first (in
insertion order) whose level is that minimal — the first one whose level
is `≤` the returned task's level. -/
theorem claim_C7 (q : ProcessingQueue) :
    (q.get_next_task = none ↔ ∀ t ∈ q.tasks, t.status ≠ ProcessingStatus.PENDING)
    ∧ (∀ t, q.get_next_task = some t →
        t ∈ q.tasks ∧ t.status = ProcessingStatus.PENDING
        ∧ (∀ u ∈ q.tasks, u.status = ProcessingStatus.PENDING → t.level ≤ u.level)
        ∧ (q.tasks.filter (fun u => u.status = ProcessingStatus.PENDING)).find?
            (fun u => u.level ≤ t.level) = some t) := by
  have hpick : q.get_next_task
      = pickFirstMin (q.tasks.filter (fun u => u.status = ProcessingStatus.PENDING)) :=
    head?_sortByLevel _
  constructor
  · rw [hpick, pickFirstMin_eq_none, List.filter_eq_nil_iff]
    constructor
    · intro h t ht
      have := h t ht
      simpa using this
    · intro h t ht
      simpa using h t ht
  · intro t ht
    rw [hpick] at ht
    obtain ⟨hmem, hmin, hfind⟩ := pickFirstMin_spec _ t ht
    have hm := List.mem_filter.mp hmem
    refine ⟨hm.1, by simpa using hm.2, ?_, hfind⟩
    intro u hu hupend
    exact hmin u (List.mem_filter.mpr ⟨hu, by simp [hupend]⟩)

/-- Witness for C7: on a queue holding a level-2 task before a level-1
task, `get_next_task` returns the level-1 task, it is PENDING, and its
level is minimal. -/
theorem claim_C7_witness :
    twoTaskQueue.get_next_task = some taskLevelOne
    ∧ taskLevelOne.status = ProcessingStatus.PENDING
    ∧ (∀ u ∈ twoTaskQueue.tasks,
        u.status = ProcessingStatus.PENDING → taskLevelOne.level ≤ u.level) :=
  ⟨by decide,
   ((claim_C7 twoTaskQueue).2 taskLevelOne (by decide)).2.1,
   ((claim_C7 twoTaskQueue).2 taskLevelOne (by decide)).2.2.1⟩

/-! ### C2 — level invariant and deletion order -/

theorem levelStep_true (m : Levels) (r : Relationship) :
    (levelStep (m, true) r).2 = true := by
  simp only [levelStep]
  cases lookupLevel m (tableKey r.referenced_table) with
  | none => rfl
  | some l =>
    cases lookupLevel m (tableKey r.parent_table) with
    | none => rfl
    | some p =>
      dsimp only
      split <;> rfl

theorem foldl_levelStep_true (rels : List Relationship) (m : Levels) :
    (rels.foldl levelStep (m, true)).2 = true := by
  induction rels generalizing m with
  | nil => rfl
  | cons r rels ih =>
    simp only [List.foldl_cons]
    rcases hp : levelStep (m, true) r with ⟨m1, c⟩
    have hc := levelStep_true m r
    rw [hp] at hc
    cases hc
    exact ih m1

theorem levelStep_false (m : Levels) (r : Relationship) (m' : Levels)
    (h : levelStep (m, false) r = (m', false)) :
    m' = m ∧ ∀ l, lookupLevel m (tableKey r.referenced_table) = some l →
      ∃ p, lookupLevel m (tableKey r.parent_table) = some p ∧ l + 1 ≤ p := by
  revert h
  simp only [levelStep]
  cases href : lookupLevel m (tableKey r.referenced_table) with
  | none =>
    intro h
    refine ⟨(congrArg Prod.fst h).symm, ?_⟩
    intro l hl
    cases hl
  | some l0 =>
    cases hpar : lookupLevel m (tableKey r.parent_table) with
    | none =>
      intro h
      exact absurd (congrArg Prod.snd h) (by simp)
    | some p0 =>
      dsimp only
      by_cases hlt : p0 < l0 + 1
      · rw [if_pos hlt]
        intro h
        exact absurd (congrArg Prod.snd h) (by simp)
      · rw [if_neg hlt]
        intro h
        refine ⟨(congrArg Prod.fst h).symm, ?_⟩
        intro l hl
        injection hl with hl
        subst hl
        exact ⟨p0, rfl, not_lt.mp hlt⟩

theorem levelPass_false (rels : List Relationship) :
    ∀ (m m' : Levels), rels.foldl levelStep (m, false) = (m', false) →
      m' = m ∧ ∀ r ∈ rels, ∀ l, lookupLevel m (tableKey r.referenced_table) = some l →
        ∃ p, lookupLevel m (tableKey r.parent_table) = some p ∧ l + 1 ≤ p := by
  induction rels with
  | nil =>
    intro m m' h
    simp only [List.foldl_nil] at h
    exact ⟨(congrArg Prod.fst h).symm, by simp⟩
  | cons r rels ih =>
    intro m m' h
    simp only [List.foldl_cons] at h
    rcases hp : levelStep (m, false) r with ⟨m1, c⟩
    rw [hp] at h
    cases c with
    | true =>
      have := foldl_levelStep_true rels m1
      rw [h] at this
      cases this
    | false =>
      obtain ⟨hm1, hguard⟩ := levelStep_false m r m1 hp
      subst hm1
      obtain ⟨hm', hrest⟩ := ih _ _ h
      refine ⟨hm', ?_⟩
      intro r' hr' l hl
      rcases List.mem_cons.mp hr' with rfl | hr'
      · exact hguard l hl
      · exact hrest r' hr' l hl

theorem rebuildLoop_fixpoint (rels : List Relationship) :
    ∀ (fuel : Nat) (m mf : Levels), rebuildLoop rels fuel m = (mf, true) →
      ∀ r ∈ rels, ∀ l, lookupLevel mf (tableKey r.referenced_table) = some l →
        ∃ p, lookupLevel mf (tableKey r.parent_table) = some p ∧ l + 1 ≤ p := by
  intro fuel
  induction fuel with
  | zero =>
    intro m mf h
    exact absurd (congrArg Prod.snd h) (by simp [rebuildLoop])
  | succ fuel ih =>
    intro m mf h
    simp only [rebuildLoop] at h
    rcases hp : levelPass rels m with ⟨m1, c⟩
    rw [hp] at h
    cases c with
    | true =>
      simp only [if_pos] at h
      exact ih m1 mf h
    | false =>
      simp only [Bool.false_eq_true, if_neg, not_false_iff] at h
      have hm1 : m1 = mf := congrArg Prod.fst h
      subst hm1
      obtain ⟨hm, hg⟩ := levelPass_false rels m m1 hp
      subst hm
      exact hg

theorem mem_insertDesc (a x : String × Nat) (l : List (String × Nat)) :
    x ∈ insertDesc a l ↔ x = a ∨ x ∈ l := by
  induction l with
  | nil => simp [insertDesc]
  | cons b t ih =>
    simp only [insertDesc]
    split
    · simp only [List.mem_cons]
    · simp only [List.mem_cons, ih]
      tauto

theorem mem_sortDescByLevel (l : List (String × Nat)) (x : String × Nat) :
    x ∈ sortDescByLevel l ↔ x ∈ l := by
  induction l with
  | nil => simp [sortDescByLevel]
  | cons a t ih =>
    show x ∈ insertDesc a (sortDescByLevel t) ↔ _
    rw [mem_insertDesc]
    simp only [List.mem_cons, ih]

theorem pairwise_insertDesc (a : String × Nat) (l : List (String × Nat))
    (h : l.Pairwise (fun x y => y.2 ≤ x.2)) :
    (insertDesc a l).Pairwise (fun x y => y.2 ≤ x.2) := by
  induction l with
  | nil => simp [insertDesc]
  | cons b t ih =>
    rcases List.pairwise_cons.mp h with ⟨hb, ht⟩
    simp only [insertDesc]
    split
    · rename_i hba
      refine List.pairwise_cons.mpr ⟨?_, h⟩
      intro y hy
      rcases List.mem_cons.mp hy with rfl | hy
      · exact hba
      · exact le_trans (hb y hy) hba
    · rename_i hba
      refine List.pairwise_cons.mpr ⟨?_, ih ht⟩
      intro y hy
      rw [mem_insertDesc] at hy
      rcases hy with rfl | hy
      · exact le_of_lt (lt_of_not_le hba)
      · exact hb y hy

theorem pairwise_sortDescByLevel (l : List (String × Nat)) :
    (sortDescByLevel l).Pairwise (fun x y => y.2 ≤ x.2) := by
  induction l with
  | nil => simp [sortDescByLevel]
  | cons a t ih => exact pairwise_insertDesc a _ ih

theorem before_of_pairwise_gt (l : List (String × Nat))
    (hp : l.Pairwise (fun x y => y.2 ≤ x.2))
    (x y : String × Nat) (hx : x ∈ l) (hy : y ∈ l) (hxy : y.2 < x.2) :
    ∃ i j, i < j ∧ l.get? i = some x ∧ l.get? j = some y := by
  obtain ⟨i, hi⟩ := List.mem_iff_get.mp hx
  obtain ⟨j, hj⟩ := List.mem_iff_get.mp hy
  have hij : (i : Nat) < (j : Nat) := by
    rcases lt_trichotomy (i : Nat) (j : Nat) with hlt | heq | hgt
    · exact hlt
    · exfalso
      have hxy' : x = y := by
        rw [← hi, ← hj]
        congr 1
        exact Fin.ext heq
      rw [hxy'] at hxy
      exact lt_irrefl _ hxy
    · exfalso
      have := List.pairwise_iff_get.mp hp j i hgt
      rw [hi, hj] at this
      exact absurd hxy (not_lt.mpr this)
  refine ⟨i, j, hij, ?_, ?_⟩
  · rw [List.get?_eq_get i.isLt]
    exact congrArg some hi
  · rw [List.get?_eq_get j.isLt]
    exact congrArg some hj

theorem mem_addTableOnce (acc : List (String × DbTable)) (t : DbTable)
    (p : String × DbTable) (hp : p ∈ addTableOnce acc t) :
    p ∈ acc ∨ p = (tableKey t, t) := by
  revert hp
  simp only [addTableOnce]
  split
  · exact Or.inl
  · intro hp
    rcases List.mem_append.mp hp with hq | hq
    · exact Or.inl hq
    · simp only [List.mem_singleton] at hq
      exact Or.inr hq

theorem keys_addTableOnce_mono (acc : List (String × DbTable)) (t : DbTable)
    (k : String) (hk : k ∈ acc.map Prod.fst) :
    k ∈ (addTableOnce acc t).map Prod.fst := by
  simp only [addTableOnce]
  split
  · exact hk
  · simp only [List.map_append]
    exact List.mem_append_left _ hk

theorem key_mem_addTableOnce (acc : List (String × DbTable)) (t : DbTable) :
    tableKey t ∈ (addTableOnce acc t).map Prod.fst := by
  simp only [addTableOnce]
  split
  · rename_i hany
    rcases List.any_eq_true.mp hany with ⟨p, hp, hpk⟩
    simp only [decide_eq_true_eq] at hpk
    exact hpk ▸ List.mem_map_of_mem Prod.fst hp
  · simp

theorem keys_foldl_collectStep_mono (rels : List Relationship) :
    ∀ (acc : List (String × DbTable)) (k : String), k ∈ acc.map Prod.fst →
      k ∈ (rels.foldl collectStep acc).map Prod.fst := by
  induction rels with
  | nil => intro acc k hk; simpa using hk
  | cons r rels ih =>
    intro acc k hk
    exact ih _ k (keys_addTableOnce_mono _ _ _ (keys_addTableOnce_mono _ _ _ hk))

theorem collect_mem_keys_aux (rels : List Relationship) :
    ∀ (acc : List (String × DbTable)) (r : Relationship), r ∈ rels →
      tableKey r.parent_table ∈ (rels.foldl collectStep acc).map Prod.fst
      ∧ tableKey r.referenced_table ∈ (rels.foldl collectStep acc).map Prod.fst := by
  induction rels with
  | nil =>
    intro acc r hr
    simp at hr
  | cons r0 rels ih =>
    intro acc r hr
    simp only [List.foldl_cons]
    rcases List.mem_cons.mp hr with rfl | hr
    · constructor
      · exact keys_foldl_collectStep_mono rels _ _
          (keys_addTableOnce_mono _ _ _ (key_mem_addTableOnce acc r.parent_table))
      · exact keys_foldl_collectStep_mono rels _ _
          (key_mem_addTableOnce _ r.referenced_table)
    · exact ih _ r hr

theorem collect_mem_keys (h : Hierarchy) (r : Relationship) (hr : r ∈ h.relationships) :
    tableKey r.parent_table ∈ (collectTables h).map Prod.fst
    ∧ tableKey r.referenced_table ∈ (collectTables h).map Prod.fst :=
  collect_mem_keys_aux h.relationships _ r hr

theorem collect_key_inv_aux (rels : List Relationship) :
    ∀ (acc : List (String × DbTable)), (∀ p ∈ acc, tableKey p.2 = p.1) →
      ∀ p ∈ rels.foldl collectStep acc, tableKey p.2 = p.1 := by
  induction rels with
  | nil =>
    intro acc hacc
    simpa using hacc
  | cons r rels ih =>
    intro acc hacc
    apply ih
    intro p hp
    rcases mem_addTableOnce _ _ _ hp with hp1 | rfl
    · rcases mem_addTableOnce _ _ _ hp1 with hp2 | rfl
      · exact hacc p hp2
      · rfl
    · rfl

theorem collect_key_inv (h : Hierarchy) :
    ∀ p ∈ collectTables h, tableKey p.2 = p.1 := by
  apply collect_key_inv_aux
  intro p hp
  simp only [List.mem_singleton] at hp
  subst hp
  rfl

theorem lookupTable_key (assoc : List (String × DbTable)) (k : String)
    (hinv : ∀ p ∈ assoc, tableKey p.2 = p.1) (hk : k ∈ assoc.map Prod.fst) :
    ∃ t, lookupTable assoc k = some t ∧ tableKey t = k := by
  unfold lookupTable
  cases hf : assoc.find? (fun p => p.1 = k) with
  | none =>
    exfalso
    rcases List.mem_map.mp hk with ⟨p, hp, hpk⟩
    have := List.find?_eq_none.mp hf p hp
    simp [hpk] at this
  | some e =>
    have hpe : e.1 = k := by
      have := List.find?_some hf
      simpa using this
    have hmem : e ∈ assoc := List.mem_of_find?_eq_some hf
    exact ⟨e.2, rfl, by rw [hinv e hmem, hpe]⟩

/-- C2 counterexample: with a self-referencing relationship (an
`Employee.manager_id`-style table) `rebuild_table_levels` keeps bumping
the one table's level until the 10-iteration cap cuts it off, and the
parent's level cannot be strictly greater than the referenced level — they
are the same entry.  The claim, which quantifies over every relationship
in the list, fails at this input. -/
theorem claim_C2_counterexample :
    selfRel ∈ selfHierarchy.relationships
    ∧ (selfHierarchy.rebuild_table_levels).2 = false
    ∧ ¬ ((lookupLevel (selfHierarchy.rebuild_table_levels).1
            (tableKey selfRel.parent_table)).getD 0
          > (lookupLevel (selfHierarchy.rebuild_table_levels).1
            (tableKey selfRel.referenced_table)).getD 0) := by
  refine ⟨by decide, by decide, by decide⟩

/-- C2 (amended): when `rebuild_table_levels` exits because a full pass
changed nothing (a fixed point, always the case on acyclic relationship
lists small enough for the 10-pass cap), then for every relationship
whose referenced table has an assigned level the parent (dependent)
table's level is strictly greater, and `get_deletion_order` — which sorts
the collected tables by level descending with ties broken by stable input
order — places the parent table strictly before the referenced table.
With a cyclic relationship list (for example a self-referencing table)
the cap is hit before a fixed point and the guarantee fails. -/
theorem claim_C2 (h : Hierarchy) (rel : Relationship) (L : Nat)
    (hfix : (h.rebuild_table_levels).2 = true)
    (hrel : rel ∈ h.relationships)
    (href : lookupLevel (h.rebuild_table_levels).1 (tableKey rel.referenced_table)
      = some L) :
    (∃ P, lookupLevel (h.rebuild_table_levels).1 (tableKey rel.parent_table) = some P
      ∧ L < P)
    ∧ (∃ i j, i < j
        ∧ (({ h with table_levels := (h.rebuild_table_levels).1 }).get_deletion_order.map
            tableKey).get? i = some (tableKey rel.parent_table)
        ∧ (({ h with table_levels := (h.rebuild_table_levels).1 }).get_deletion_order.map
            tableKey).get? j = some (tableKey rel.referenced_table)) := by
  have hpair : h.rebuild_table_levels = ((h.rebuild_table_levels).1, true) := by
    rw [← hfix]
  obtain ⟨P, hP, hLP⟩ := rebuildLoop_fixpoint h.relationships 10 _ _ hpair rel hrel L href
  refine ⟨⟨P, hP, hLP⟩, ?_⟩
  set lv := (h.rebuild_table_levels).1 with hlv
  set h' : Hierarchy := { h with table_levels := lv } with hh'
  have hassoc : collectTables h' = collectTables h := rfl
  have hinv : ∀ p ∈ collectTables h, tableKey p.2 = p.1 := collect_key_inv h
  obtain ⟨hkp, hkr⟩ := collect_mem_keys h rel hrel
  set twl : List (String × Nat) :=
    (collectTables h).map (fun p => (p.1, (lookupLevel lv p.1).getD 0)) with htwl
  have hxP : (tableKey rel.parent_table, P) ∈ twl := by
    rcases List.mem_map.mp hkp with ⟨p, hp, hpk⟩
    refine List.mem_map.mpr ⟨p, hp, ?_⟩
    rw [hpk, hP]
    rfl
  have hyL : (tableKey rel.referenced_table, L) ∈ twl := by
    rcases List.mem_map.mp hkr with ⟨p, hp, hpk⟩
    refine List.mem_map.mpr ⟨p, hp, ?_⟩
    rw [hpk, href]
    rfl
  have hpw := pairwise_sortDescByLevel twl
  obtain ⟨i, j, hij, hgi, hgj⟩ := before_of_pairwise_gt (sortDescByLevel twl) hpw
    (tableKey rel.parent_table, P) (tableKey rel.referenced_table, L)
    ((mem_sortDescByLevel _ _).mpr hxP) ((mem_sortDescByLevel _ _).mpr hyL) hLP
  have hout : h'.get_deletion_order
      = (sortDescByLevel twl).map
          (fun p => (lookupTable (collectTables h) p.1).getD ⟨"", "", none⟩) := rfl
  refine ⟨i, j, hij, ?_, ?_⟩
  · rw [hout, List.map_map, List.get?_map, hgi]
    obtain ⟨t, hlk, htk⟩ := lookupTable_key (collectTables h) _ hinv hkp
    simp [Function.comp, hlk, htk]
  · rw [hout, List.map_map, List.get?_map, hgj]
    obtain ⟨t, hlk, htk⟩ := lookupTable_key (collectTables h) _ hinv hkr
    simp [Function.comp, hlk, htk]

/-- Witness for C2 on the acyclic two-table hierarchy: the rebuild reaches
a fixed point, `Orders` gets level 1 above `Customers` at level 0, and the
deletion order lists `Orders` before `Customers`. -/
theorem claim_C2_witness :
    (ordersHierarchy.rebuild_table_levels).2 = true
    ∧ (∃ P, lookupLevel (ordersHierarchy.rebuild_table_levels).1
        (tableKey ordersRel.parent_table) = some P ∧ 0 < P)
    ∧ (∃ i j, i < j
        ∧ (({ ordersHierarchy with
              table_levels := (ordersHierarchy.rebuild_table_levels).1 }).get_deletion_order.map
            tableKey).get? i = some (tableKey ordersRel.parent_table)
        ∧ (({ ordersHierarchy with
              table_levels := (ordersHierarchy.rebuild_table_levels).1 }).get_deletion_order.map
            tableKey).get? j = some (tableKey ordersRel.referenced_table)) :=
  ⟨by decide,
   (claim_C2 ordersHierarchy ordersRel 0 (by decide) (by decide) (by decide)).1,
   (claim_C2 ordersHierarchy ordersRel 0 (by decide) (by decide) (by decide)).2⟩

/-! ### C8 — per-query failures degrade to zero results -/

theorem exec_ref_error (oracle : Oracle) (query e : String)
    (h : oracle query = Except.error e) :
    _execute_referenced_values_query oracle query = [] := by
  simp [_execute_referenced_values_query, h]

theorem find_child_single_error (oracle : Oracle) (child_table : DbTable)
    (fkcols : List DbColumn) (vals : List Row) (e : String)
    (h : oracle (childQueryText child_table (pkSelectSql (pkColumnsOf child_table))
      (build_fk_where_clause fkcols vals)) = Except.error e) :
    _find_child_primary_keys_single_query oracle child_table fkcols vals = [] := by
  cases hpk : child_table.primary_key with
  | none => simp [_find_child_primary_keys_single_query, hpk]
  | some pk =>
    have hcols : pkColumnsOf child_table = pk.columns := by simp [pkColumnsOf, hpk]
    rw [hcols] at h
    by_cases hc : pk.columns = []
    · simp [_find_child_primary_keys_single_query, hpk, hc]
    · by_cases hw : build_fk_where_clause fkcols vals = "1=0"
      · simp [_find_child_primary_keys_single_query, hpk, hc, hw]
      · simp [_find_child_primary_keys_single_query, hpk, hc, hw, h]

theorem get_ref_error (oracle : Oracle) (pt : DbTable) (ids : List Value)
    (refcols : List DbColumn) (config : CleanupConfig) (e : String)
    (hth : config.batch_threshold = 0)
    (h : oracle (refQuerySingleText pt (refColumnsSql refcols)
      (_build_pk_where_clause (pkColumnsOf pt) ids)) = Except.error e) :
    get_referenced_column_values oracle pt ids refcols config = [] := by
  cases hpk : pt.primary_key with
  | none => simp [get_referenced_column_values, hpk]
  | some pk =>
    have hcols : pkColumnsOf pt = pk.columns := by simp [pkColumnsOf, hpk]
    rw [hcols] at h
    by_cases hc : pk.columns = []
    · simp [get_referenced_column_values, hpk, hc]
    · have hcond : ¬ (0 < config.batch_threshold
          ∧ config.batch_threshold ≤ (ids.length : Int)) := by
        rw [hth]
        simp
      simp [get_referenced_column_values, hpk, hc, hcond,
        _execute_referenced_values_query, h]

theorem get_ref_single_query (oracle : Oracle) (pt : DbTable) (ids : List Value)
    (refcols : List DbColumn) (config : CleanupConfig) (pk : PrimaryKey)
    (hth : config.batch_threshold = 0) (hpk : pt.primary_key = some pk)
    (hc : pk.columns ≠ []) :
    get_referenced_column_values oracle pt ids refcols config
      = _execute_referenced_values_query oracle
          (refQuerySingleText pt (refColumnsSql refcols)
            (_build_pk_where_clause pk.columns ids)) := by
  have hcond : ¬ (0 < config.batch_threshold
      ∧ config.batch_threshold ≤ (ids.length : Int)) := by
    rw [hth]
    simp
  simp [get_referenced_column_values, hpk, hc, hcond]

theorem find_child_threshold0 (oracle : Oracle) (ct : DbTable)
    (fkcols : List DbColumn) (vals : List Row) (config : CleanupConfig)
    (hth : config.batch_threshold = 0) :
    find_child_primary_keys oracle ct fkcols vals config
      = _find_child_primary_keys_single_query oracle ct fkcols vals := by
  cases hpk : ct.primary_key with
  | none => simp [find_child_primary_keys, _find_child_primary_keys_single_query, hpk]
  | some pk =>
    by_cases hc : pk.columns = []
    · simp [find_child_primary_keys, _find_child_primary_keys_single_query, hpk, hc]
    · have hcond : ¬ (0 < config.batch_threshold
          ∧ config.batch_threshold ≤ (vals.length : Int)) := by
        rw [hth]
        simp
      simp [find_child_primary_keys, hpk, hc, hcond]

/-- C8: a raised referenced-value query is caught and yields `[]`; a raised
child-PK query is caught and yields the empty set; and in the planner's
inner loop a relationship whose referenced-value query (or whose child-PK
query) raises contributes nothing, while the remaining relationships are
still processed — the fold over the relationship list continues with the
queue unchanged instead of aborting. -/
theorem claim_C8 :
    (∀ (oracle : Oracle) (query e : String), oracle query = Except.error e →
      _execute_referenced_values_query oracle query = [])
    ∧ (∀ (oracle : Oracle) (child_table : DbTable) (fkcols : List DbColumn)
        (vals : List Row) (e : String),
        oracle (childQueryText child_table (pkSelectSql (pkColumnsOf child_table))
          (build_fk_where_clause fkcols vals)) = Except.error e →
        _find_child_primary_keys_single_query oracle child_table fkcols vals = [])
    ∧ (∀ (oracle : Oracle) (config : CleanupConfig) (task_key : String)
        (rel : Relationship) (rest : List Relationship) (q : ProcessingQueue)
        (t : CascadeTask) (e : String),
        config.batch_threshold = 0 →
        q.get_task task_key = some t →
        oracle (refQuerySingleText rel.referenced_table
          (refColumnsSql rel.referenced_columns)
          (_build_pk_where_clause (pkColumnsOf rel.referenced_table) t.ids))
          = Except.error e →
        processRelationships oracle config task_key (rel :: rest) q
          = processRelationships oracle config task_key rest q)
    ∧ (∀ (oracle : Oracle) (config : CleanupConfig) (task_key : String)
        (rel : Relationship) (rest : List Relationship) (q : ProcessingQueue)
        (t : CascadeTask) (vals : List Row) (e : String),
        config.batch_threshold = 0 →
        q.get_task task_key = some t →
        oracle (refQuerySingleText rel.referenced_table
          (refColumnsSql rel.referenced_columns)
          (_build_pk_where_clause (pkColumnsOf rel.referenced_table) t.ids))
          = Except.ok vals →
        oracle (childQueryText rel.parent_table
          (pkSelectSql (pkColumnsOf rel.parent_table))
          (build_fk_where_clause rel.parent_columns vals)) = Except.error e →
        processRelationships oracle config task_key (rel :: rest) q
          = processRelationships oracle config task_key rest q) := by
  refine ⟨exec_ref_error, find_child_single_error, ?_, ?_⟩
  · intro oracle config task_key rel rest q t e hth hget horacle
    have h0 : get_referenced_column_values oracle rel.referenced_table t.ids
        rel.referenced_columns config = [] :=
      get_ref_error oracle _ _ _ _ _ hth horacle
    show (rel :: rest).foldl (processRelationship oracle config task_key) q = _
    rw [List.foldl_cons]
    have hq : processRelationship oracle config task_key q rel = q := by
      simp [processRelationship, hget, h0]
    rw [hq]
    rfl
  · intro oracle config task_key rel rest q t vals e hth hget href hchild
    show (rel :: rest).foldl (processRelationship oracle config task_key) q = _
    rw [List.foldl_cons]
    have hq : processRelationship oracle config task_key q rel = q := by
      cases hpk : rel.referenced_table.primary_key with
      | none =>
        have h0 : get_referenced_column_values oracle rel.referenced_table t.ids
            rel.referenced_columns config = [] := by
          simp [get_referenced_column_values, hpk]
        simp [processRelationship, hget, h0]
      | some pk =>
        by_cases hc : pk.columns = []
        · have h0 : get_referenced_column_values oracle rel.referenced_table t.ids
              rel.referenced_columns config = [] := by
            simp [get_referenced_column_values, hpk, hc]
          simp [processRelationship, hget, h0]
        · have hcols : pkColumnsOf rel.referenced_table = pk.columns := by
            simp [pkColumnsOf, hpk]
          rw [hcols] at href
          have h0 : get_referenced_column_values oracle rel.referenced_table t.ids
              rel.referenced_columns config = vals := by
            rw [get_ref_single_query oracle _ _ _ _ pk hth hpk hc]
            simp [_execute_referenced_values_query, href]
          by_cases hv : vals = []
          · subst hv
            simp [processRelationship, hget, h0]
          · have hchild0 : find_child_primary_keys oracle rel.parent_table
                rel.parent_columns vals config = [] := by
              rw [find_child_threshold0 oracle _ _ _ _ hth]
              exact find_child_single_error oracle _ _ _ _ hchild
            simp [processRelationship, hget, h0, hv, hchild0]
    rw [hq]
    rfl

/-- Witness for C8 at concrete oracles: an always-failing oracle yields
empty results at both query sites and skips the relationship, and an
oracle that answers the referenced-value query but raises on the child-PK
query also skips the relationship, leaving the queue unchanged. -/
theorem claim_C8_witness :
    _execute_referenced_values_query failingOracle "SELECT 1" = []
    ∧ _find_child_primary_keys_single_query failingOracle ordersTable
        ordersRel.parent_columns [[Scalar.sInt 1]] = []
    ∧ processRelationships failingOracle noBatchConfig "dbo.Customers" [ordersRel]
        pendingQueue
      = processRelationships failingOracle noBatchConfig "dbo.Customers" [] pendingQueue
    ∧ processRelationships mixedOracle noBatchConfig "dbo.Customers" [ordersRel]
        pendingQueue
      = processRelationships mixedOracle noBatchConfig "dbo.Customers" [] pendingQueue :=
  ⟨claim_C8.1 failingOracle "SELECT 1" "connection reset" rfl,
   claim_C8.2.1 failingOracle ordersTable ordersRel.parent_columns
     [[Scalar.sInt 1]] "connection reset" rfl,
   claim_C8.2.2.1 failingOracle noBatchConfig "dbo.Customers" ordersRel []
     pendingQueue pendingTask "connection reset" rfl (by decide) rfl,
   claim_C8.2.2.2 mixedOracle noBatchConfig "dbo.Customers" ordersRel []
     pendingQueue pendingTask [[Scalar.sInt 1]] "boom" rfl (by decide)
     rfl rfl⟩

/-! ### C6 — batch/non-batch equivalence -/

theorem intercalate_go_data (s : String) (l : List String) :
    ∀ (acc : String), ∃ t, (String.intercalate.go acc s l).data = acc.data ++ t := by
  induction l with
  | nil =>
    intro acc
    exact ⟨[], by simp [String.intercalate.go]⟩
  | cons b bs ih =>
    intro acc
    obtain ⟨t, ht⟩ := ih (acc ++ s ++ b)
    refine ⟨s.data ++ b.data ++ t, ?_⟩
    show (String.intercalate.go (acc ++ s ++ b) s bs).data = _
    rw [ht]
    simp [String.data_append]

theorem intercalate_data_prefix (s a : String) (l : List String) :
    ∃ t, (String.intercalate s (a :: l)).data = a.data ++ t :=
  intercalate_go_data s l a

theorem paren_clause_intercalate_ne (x : String) (rest : List String) :
    String.intercalate " OR " (("(" ++ x ++ ")") :: rest) ≠ "1=0" := by
  intro h
  obtain ⟨t, ht⟩ := intercalate_data_prefix " OR " ("(" ++ x ++ ")") rest
  rw [h] at ht
  simp [String.data_append] at ht

theorem build_fk_ne_falseLit (fkcols : List DbColumn) (b : List Row)
    (hbne : b ≠ []) (hb : ∀ u ∈ b, tupleConditions fkcols u ≠ []) :
    build_fk_where_clause fkcols b ≠ "1=0" := by
  obtain ⟨u, b', rfl⟩ : ∃ u b', b = u :: b' := by
    cases b with
    | nil => exact absurd rfl hbne
    | cons u b' => exact ⟨u, b', rfl⟩
  have hcu := hb u (List.mem_cons_self _ _)
  cases fkcols with
  | nil =>
    exfalso
    exact hcu (by simp [tupleConditions])
  | cons c cs =>
    cases cs with
    | nil =>
      show ("[" ++ c.column_name ++ "] IN ("
        ++ format_id_list_for_sql _ ++ ")") ≠ "1=0"
      intro h
      have := congrArg String.data h
      simp [String.data_append] at this
    | cons c2 cs2 =>
      show (let wcs := (u :: b').filterMap _
        if wcs = [] then "1=0" else String.intercalate " OR " wcs) ≠ "1=0"
      simp only [List.filterMap_cons, if_neg hcu]
      intro h
      revert h
      split
      · rename_i heq
        exact absurd heq (by simp)
      · exact paren_clause_intercalate_ne _ _

theorem any_dedupFirst [DecidableEq α] (l : List α) (p : α → Bool) :
    (dedupFirst l).any p = l.any p := by
  cases hl : l.any p with
  | true =>
    rcases List.any_eq_true.mp hl with ⟨x, hx, hp⟩
    exact List.any_eq_true.mpr ⟨x, (mem_dedupFirst l x).mpr hx, hp⟩
  | false =>
    rw [List.any_eq_false] at hl
    rw [List.any_eq_false]
    intro x hx
    exact hl x ((mem_dedupFirst l x).mp hx)

theorem mem_of_mem_chunkList (bs : Nat) (hbs : bs ≠ 0) (l b : List α) (x : α)
    (hb : b ∈ chunkList bs l) (hx : x ∈ b) : x ∈ l := by
  have : x ∈ (chunkList bs l).flatten := List.mem_flatten.mpr ⟨b, hb, hx⟩
  rwa [chunkList_flatten bs hbs] at this

theorem any_chunk_iff (bs : Nat) (hbs : bs ≠ 0) (S : List α) (q : α → Bool) :
    (∃ b ∈ chunkList bs S, b.any q = true) ↔ S.any q = true := by
  constructor
  · rintro ⟨b, hb, hq⟩
    rcases List.any_eq_true.mp hq with ⟨v, hv, hqv⟩
    exact List.any_eq_true.mpr ⟨v, mem_of_mem_chunkList bs hbs S b v hb hv, hqv⟩
  · intro hq
    rcases List.any_eq_true.mp hq with ⟨v, hv, hqv⟩
    have hv' : v ∈ (chunkList bs S).flatten := by
      rw [chunkList_flatten bs hbs]
      exact hv
    rcases List.mem_flatten.mp hv' with ⟨b, hb, hvb⟩
    exact ⟨b, hb, List.any_eq_true.mpr ⟨v, hvb, hqv⟩⟩

theorem mem_refQueryModel (tblRows : List Row) (m : Row → Value → Bool)
    (proj : Row → Row) (S : List Value) (x : Row) :
    x ∈ refQueryModel tblRows m proj S
      ↔ ∃ r, r ∈ tblRows ∧ S.any (m r) = true ∧ proj r = x := by
  rw [refQueryModel, mem_dedupFirst]
  simp only [List.mem_map, List.mem_filter]
  constructor
  · rintro ⟨r, ⟨hr, hany⟩, hp⟩
    exact ⟨r, hr, hany, hp⟩
  · rintro ⟨r, hr, hany, hp⟩
    exact ⟨r, ⟨hr, hany⟩, hp⟩

theorem mem_batched_refModel_iff (tblRows : List Row) (m : Row → Value → Bool)
    (proj : Row → Row) (bs : Nat) (hbs : bs ≠ 0) (S : List Value) (x : Row) :
    x ∈ dedupFirst (((chunkList bs S).map
        (fun b => refQueryModel tblRows m proj (dedupFirst b))).flatten)
      ↔ x ∈ refQueryModel tblRows m proj S := by
  rw [mem_dedupFirst, mem_refQueryModel]
  simp only [List.mem_flatten, List.mem_map]
  constructor
  · rintro ⟨L', ⟨b, hb, rfl⟩, hx⟩
    rw [mem_refQueryModel] at hx
    obtain ⟨r, hr, hany, hp⟩ := hx
    rw [any_dedupFirst] at hany
    refine ⟨r, hr, ?_, hp⟩
    exact (any_chunk_iff bs hbs S (m r)).mp ⟨b, hb, hany⟩
  · rintro ⟨r, hr, hany, hp⟩
    obtain ⟨b, hb, hbany⟩ := (any_chunk_iff bs hbs S (m r)).mpr hany
    refine ⟨refQueryModel tblRows m proj (dedupFirst b), ⟨b, hb, rfl⟩, ?_⟩
    rw [mem_refQueryModel]
    exact ⟨r, hr, by rw [any_dedupFirst]; exact hbany, hp⟩

theorem mem_chunk_union_child (childRows : List Row) (mT : Row → Row → Bool)
    (f : Row → Value) (bs : Nat) (hbs : bs ≠ 0) (V : List Row) (y : Value) :
    (∃ b ∈ chunkList bs V,
        y ∈ dedupFirst ((childRows.filter (fun r => b.any (mT r))).map f))
      ↔ y ∈ dedupFirst ((childRows.filter (fun r => V.any (mT r))).map f) := by
  simp only [mem_dedupFirst, List.mem_map, List.mem_filter]
  constructor
  · rintro ⟨b, hb, r, ⟨hr, hany⟩, hp⟩
    exact ⟨r, ⟨hr, (any_chunk_iff bs hbs V (mT r)).mp ⟨b, hb, hany⟩⟩, hp⟩
  · rintro ⟨r, ⟨hr, hany⟩, hp⟩
    obtain ⟨b, hb, hbany⟩ := (any_chunk_iff bs hbs V (mT r)).mpr hany
    exact ⟨b, hb, r, ⟨hr, hbany⟩, hp⟩

theorem get_ref_batched (oracle : Oracle) (pt : DbTable) (ids : List Value)
    (refcols : List DbColumn) (bs : Int) (pk : PrimaryKey)
    (hpk : pt.primary_key = some pk) (hc : pk.columns ≠ []) (hne : ids ≠ []) :
    get_referenced_column_values oracle pt ids refcols ⟨bs, 1⟩
      = _process_referenced_values_in_batches oracle pt ids (refColumnsSql refcols)
          pk.columns bs := by
  have hlen : 1 ≤ ids.length := List.length_pos.mpr hne
  have hcond : 0 < (1 : Int) ∧ (1 : Int) ≤ (ids.length : Int) := by
    constructor
    · decide
    · exact_mod_cast hlen
  simp [get_referenced_column_values, hpk, hc, hcond]

theorem find_child_batched (oracle : Oracle) (child : DbTable)
    (fkcols : List DbColumn) (vals : List Row) (bs : Int) (cpk : PrimaryKey)
    (hcpk : child.primary_key = some cpk) (hc : cpk.columns ≠ []) (hne : vals ≠ []) :
    find_child_primary_keys oracle child fkcols vals ⟨bs, 1⟩
      = _process_child_records_in_batches oracle child fkcols vals bs := by
  have hlen : 1 ≤ vals.length := List.length_pos.mpr hne
  have hcond : 0 < (1 : Int) ∧ (1 : Int) ≤ (vals.length : Int) := by
    constructor
    · decide
    · exact_mod_cast hlen
  simp [find_child_primary_keys, hcpk, hc, hcond]

theorem find_child_single_eval (oracle : Oracle) (child : DbTable) (cpk : PrimaryKey)
    (hcpk : child.primary_key = some cpk) (hc : cpk.columns ≠ [])
    (fkcols : List DbColumn) (b : List Row) (rows : List Row)
    (hbne : b ≠ []) (hb : ∀ u ∈ b, tupleConditions fkcols u ≠ [])
    (h : oracle (childQueryText child (pkSelectSql cpk.columns)
      (build_fk_where_clause fkcols b)) = Except.ok rows) :
    _find_child_primary_keys_single_query oracle child fkcols b
      = (match cpk.columns with
         | [_] =>
           if rows.any (fun row => row = []) then []
           else dedupFirst (rows.map (fun row => Value.scalar (row.headD Scalar.sNull)))
         | _ => dedupFirst (rows.map Value.tup)) := by
  have hw := build_fk_ne_falseLit fkcols b hbne hb
  simp [_find_child_primary_keys_single_query, hcpk, hc, hw, h]

/-- C6: assuming each issued query returns exactly the rows matching its
predicate (abstract per-ID and per-tuple match relations), the
deduplicated union of results obtained by splitting the input set into
`batch_size` chunks (batching forced with threshold 1) has exactly the
same elements as a single unbatched query over the whole set (threshold 0
disables batching), both for referenced-value lookups and for child-PK
lookups. -/
theorem claim_C6
    (oracle : Oracle) (bs : Int) (hbs : 0 < bs)
    (tbl : DbTable) (pk : PrimaryKey) (hpk : tbl.primary_key = some pk)
    (hpkc : pk.columns ≠ [])
    (parent_ids : List Value) (refcols : List DbColumn)
    (tblRows : List Row) (matchesV : Row → Value → Bool) (proj : Row → Row)
    (h1 : ∀ b ∈ chunkList bs.toNat parent_ids,
      oracle (refQueryBatchText tbl (refColumnsSql refcols)
        (_build_pk_where_clause pk.columns (dedupFirst b)))
      = Except.ok (refQueryModel tblRows matchesV proj (dedupFirst b)))
    (h2 : oracle (refQuerySingleText tbl (refColumnsSql refcols)
        (_build_pk_where_clause pk.columns parent_ids))
      = Except.ok (refQueryModel tblRows matchesV proj parent_ids))
    (child : DbTable) (cpk : PrimaryKey) (hcpk : child.primary_key = some cpk)
    (hccols : cpk.columns ≠ [])
    (fkcols : List DbColumn) (vals : List Row)
    (childRows : List Row) (matchesT : Row → Row → Bool)
    (hnr : ∀ r ∈ childRows, r ≠ [])
    (hconds : ∀ u ∈ vals, tupleConditions fkcols u ≠ [])
    (h3 : ∀ b ∈ chunkList bs.toNat vals,
      oracle (childQueryText child (pkSelectSql cpk.columns)
        (build_fk_where_clause fkcols b))
      = Except.ok (childRows.filter (fun r => b.any (matchesT r))))
    (h4 : oracle (childQueryText child (pkSelectSql cpk.columns)
        (build_fk_where_clause fkcols vals))
      = Except.ok (childRows.filter (fun r => vals.any (matchesT r)))) :
    (∀ x, x ∈ get_referenced_column_values oracle tbl parent_ids refcols ⟨bs, 1⟩
        ↔ x ∈ get_referenced_column_values oracle tbl parent_ids refcols ⟨bs, 0⟩)
    ∧ (∀ y, y ∈ find_child_primary_keys oracle child fkcols vals ⟨bs, 1⟩
        ↔ y ∈ find_child_primary_keys oracle child fkcols vals ⟨bs, 0⟩) := by
  have hbs0 : bs.toNat ≠ 0 := by omega
  constructor
  · intro x
    by_cases hne : parent_ids = []
    · subst hne
      have hc1 : ¬ (0 < (1 : Int) ∧ (1 : Int) ≤ (([] : List Value).length : Int)) := by
        simp
      have hc0 : ¬ (0 < (0 : Int) ∧ (0 : Int) ≤ (([] : List Value).length : Int)) := by
        simp
      simp [get_referenced_column_values, hpk, hpkc, hc1, hc0]
    · rw [get_ref_batched oracle tbl parent_ids refcols bs pk hpk hpkc hne,
        get_ref_single_query oracle tbl parent_ids refcols ⟨bs, 0⟩ pk rfl hpk hpkc]
      have hrhs : _execute_referenced_values_query oracle
          (refQuerySingleText tbl (refColumnsSql refcols)
            (_build_pk_where_clause pk.columns parent_ids))
          = refQueryModel tblRows matchesV proj parent_ids := by
        simp [_execute_referenced_values_query, h2]
      rw [hrhs]
      show x ∈ dedupFirst (((chunkList bs.toNat parent_ids).map (fun batch =>
        _execute_referenced_values_query oracle
          (refQueryBatchText tbl (refColumnsSql refcols)
            (_build_pk_where_clause pk.columns (dedupFirst batch))))).flatten) ↔ _
      have hmap : (chunkList bs.toNat parent_ids).map (fun batch =>
          _execute_referenced_values_query oracle
            (refQueryBatchText tbl (refColumnsSql refcols)
              (_build_pk_where_clause pk.columns (dedupFirst batch))))
          = (chunkList bs.toNat parent_ids).map
              (fun batch => refQueryModel tblRows matchesV proj (dedupFirst batch)) := by
        apply List.map_congr_left
        intro b hb
        simp [_execute_referenced_values_query, h1 b hb]
      rw [hmap]
      exact mem_batched_refModel_iff tblRows matchesV proj bs.toNat hbs0 parent_ids x
  · intro y
    by_cases hvne : vals = []
    · subst hvne
      have hc1 : ¬ (0 < (1 : Int) ∧ (1 : Int) ≤ (([] : List Row).length : Int)) := by
        simp
      have hc0 : ¬ (0 < (0 : Int) ∧ (0 : Int) ≤ (([] : List Row).length : Int)) := by
        simp
      simp [find_child_primary_keys, hcpk, hccols, hc1, hc0]
    · rw [find_child_batched oracle child fkcols vals bs cpk hcpk hccols hvne,
        find_child_threshold0 oracle child fkcols vals ⟨bs, 0⟩ rfl,
        find_child_single_eval oracle child cpk hcpk hccols fkcols vals _ hvne hconds h4]
      show y ∈ ((chunkList bs.toNat vals).map (fun batch =>
        _find_child_primary_keys_single_query oracle child fkcols batch)).foldl
          setUnion [] ↔ _
      have hmap : (chunkList bs.toNat vals).map (fun batch =>
          _find_child_primary_keys_single_query oracle child fkcols batch)
          = (chunkList bs.toNat vals).map (fun batch =>
              (match cpk.columns with
               | [_] =>
                 if (childRows.filter (fun r => batch.any (matchesT r))).any
                     (fun row => row = []) then []
                 else dedupFirst ((childRows.filter
                   (fun r => batch.any (matchesT r))).map
                   (fun row => Value.scalar (row.headD Scalar.sNull)))
               | _ => dedupFirst ((childRows.filter
                   (fun r => batch.any (matchesT r))).map Value.tup))) := by
        apply List.map_congr_left
        intro b hb
        have hbne := ne_nil_of_mem_chunkList bs.toNat hbs0 vals b hb
        have hbconds : ∀ u ∈ b, tupleConditions fkcols u ≠ [] :=
          fun u hu => hconds u (mem_of_mem_chunkList bs.toNat hbs0 vals b u hb hu)
        exact find_child_single_eval oracle child cpk hcpk hccols fkcols b _
          hbne hbconds (h3 b hb)
      rw [hmap, mem_foldl_setUnion]
      have hguard : ∀ (p : Row → Bool),
          ((childRows.filter p).any (fun row => decide (row = []))) = false := by
        intro p
        rw [List.any_eq_false]
        intro r hr
        simp [hnr r (List.mem_filter.mp hr).1]
      rcases hcols : cpk.columns with _ | ⟨c, _ | ⟨c2, cs2⟩⟩
      · exact absurd hcols hccols
      · simp only [hcols, hguard, Bool.false_eq_true, if_false]
        simp only [List.mem_nil_iff, false_or, List.mem_map]
        constructor
        · rintro ⟨s, ⟨b, hb, rfl⟩, hy⟩
          exact (mem_chunk_union_child childRows matchesT
            (fun row => Value.scalar (row.headD Scalar.sNull)) bs.toNat hbs0
            vals y).mp ⟨b, hb, hy⟩
        · intro hy
          obtain ⟨b, hb, hyb⟩ := (mem_chunk_union_child childRows matchesT
            (fun row => Value.scalar (row.headD Scalar.sNull)) bs.toNat hbs0
            vals y).mpr hy
          exact ⟨_, ⟨b, hb, rfl⟩, hyb⟩
      · simp only [hcols]
        simp only [List.mem_nil_iff, false_or, List.mem_map]
        constructor
        · rintro ⟨s, ⟨b, hb, rfl⟩, hy⟩
          exact (mem_chunk_union_child childRows matchesT Value.tup bs.toNat hbs0
            vals y).mp ⟨b, hb, hy⟩
        · intro hy
          obtain ⟨b, hb, hyb⟩ := (mem_chunk_union_child childRows matchesT Value.tup
            bs.toNat hbs0 vals y).mpr hy
          exact ⟨_, ⟨b, hb, rfl⟩, hyb⟩

/-- Witness for C6 at a concrete oracle and tables: with `batch_size = 2`
and an ID set of three values, the batched and unbatched referenced-value
and child-PK lookups agree element for element. -/
theorem claim_C6_witness :
    (∀ x, x ∈ get_referenced_column_values equivOracle customersTable eqParentIds
        [⟨"customer_id", "int"⟩] ⟨2, 1⟩
      ↔ x ∈ get_referenced_column_values equivOracle customersTable eqParentIds
        [⟨"customer_id", "int"⟩] ⟨2, 0⟩)
    ∧ (∀ y, y ∈ find_child_primary_keys equivOracle ordersTable
        [⟨"customer_id", "int"⟩] eqVals ⟨2, 1⟩
      ↔ y ∈ find_child_primary_keys equivOracle ordersTable
        [⟨"customer_id", "int"⟩] eqVals ⟨2, 0⟩) := by
  have hch : chunkList (2 : Int).toNat eqParentIds
      = [[Value.scalar (Scalar.sInt 1), Value.scalar (Scalar.sInt 2)],
         [Value.scalar (Scalar.sInt 3)]] := by decide
  have hch2 : chunkList (2 : Int).toNat eqVals = [eqVals] := by decide
  refine claim_C6 equivOracle 2 (by decide) customersTable
    ⟨"PK_Customers", [⟨"customer_id", "int"⟩]⟩ rfl (by decide)
    eqParentIds [⟨"customer_id", "int"⟩] eqTblRows eqMatchV eqProj ?_ rfl
    ordersTable ⟨"PK_Orders", [⟨"order_id", "int"⟩]⟩ rfl (by decide)
    [⟨"customer_id", "int"⟩] eqVals eqChildRows eqMatchT
    (by decide) (by decide) ?_ rfl
  · intro b hb
    rw [hch] at hb
    rcases List.mem_cons.mp hb with rfl | hb
    · rfl
    · rcases List.mem_cons.mp hb with rfl | hb
      · rfl
      · simp at hb
  · intro b hb
    rw [hch2] at hb
    rcases List.mem_cons.mp hb with rfl | hb
    · rfl
    · simp at hb

/-! ### C1 — the 1000-iteration safety bound -/

theorem runLoop_empty_ids (oracle : Oracle) (rm : RelationshipMap)
    (config : CleanupConfig) :
    ∀ (fuel k : Nat), runLoop oracle rm config fuel ⟨emptySeedQueue, k⟩
      = (⟨emptySeedQueue, k + fuel⟩, LoopExit.outOfFuel) := by
  intro fuel
  induction fuel with
  | zero =>
    intro k
    simp [runLoop]
  | succ fuel ih =>
    intro k
    have hpending : emptySeedQueue.has_pending_tasks = true := by decide
    have hnext : emptySeedQueue.get_next_task
        = some ⟨customersTable, "dbo.Customers", [], ProcessingStatus.PENDING, 0⟩ := by
      decide
    simp only [runLoop, hpending, if_true, hnext]
    rw [ih (k + 1)]
    have harith : k + 1 + fuel = k + (fuel + 1) := by omega
    rw [harith]

/-- C1: the claim says the planner loop stops after at most 1000 iterations
for every input queue state, surfacing a warning.  The code's `continue`
for a dequeued PENDING task with an empty ID set jumps back to the `while`
test without marking the task completed and without reaching the
`iteration > 1000` check, so the queue seeded with an empty root-ID fetch
(`add_task(root_table, set([]), 0)`) makes the loop run forever: for every
fuel bound the bounded runner exhausts its fuel with the queue unchanged
and the iteration counter equal to the bound — in particular far beyond
1000 — instead of stopping. -/
theorem claim_C1 (oracle : Oracle) (rm : RelationshipMap) (config : CleanupConfig)
    (fuel : Nat) :
    runLoop oracle rm config fuel ⟨emptySeedQueue, 0⟩
      = (⟨emptySeedQueue, fuel⟩, LoopExit.outOfFuel) := by
  simpa using runLoop_empty_ids oracle rm config fuel 0
